import Mathlib

/-!
Verification of the HLDNbot Hyperliquid connector (`src/unnamed/part_006` and
`src/utils/rate-limiter.js`) against its natural-language specification.

The JavaScript numeric code is modelled over exact rationals (`ℚ`): JavaScript
`Number` values in the code under scrutiny are decimal quantities (prices,
sizes) whose decimal string operations (`toPrecision`, `toFixed`, `toString`,
`parseFloat`) are specified by ECMAScript in terms of exact decimal rounding;
the model performs those roundings exactly.  Binary floating point error and
the exponential-notation output format for extreme magnitudes (`|x| < 1e-6`
or `|x| ≥ 1e21`) are outside the model.

All arithmetic used inside executable definitions is written with the helper
operations `qAdd`, `qSub`, `qMul`, `qFloor`, `qpow10`, `mulPow10` built on
`Rat.divInt`, which the kernel can evaluate; bridge lemmas identify them with
the ordinary field operations on `ℚ` for proving.
-/

/-- Kernel-computable addition on `ℚ` (identical to `+`, see `qAdd_eq`). -/
def qAdd (a b : ℚ) : ℚ := Rat.divInt (a.num * b.den + b.num * a.den) (a.den * b.den)

/-- Kernel-computable subtraction on `ℚ` (identical to `-`, see `qSub_eq`). -/
def qSub (a b : ℚ) : ℚ := qAdd a (-b)

/-- Kernel-computable multiplication on `ℚ` (identical to `*`, see `qMul_eq`). -/
def qMul (a b : ℚ) : ℚ := Rat.divInt (a.num * b.num) (a.den * b.den)

/-- Kernel-computable floor on `ℚ` (identical to `⌊·⌋`, see `qFloor_eq`). -/
def qFloor (q : ℚ) : ℤ := q.num.ediv q.den

/-- Rounding to the nearest integer, ties towards `+∞`.  This is the rounding
ECMAScript prescribes for `Math.round` and for the mantissa selection of
`toFixed` / `toPrecision` ("if there are two such n, pick the larger n"). -/
def roundHalfUp (q : ℚ) : ℤ := qFloor (qAdd q (Rat.divInt 1 2))

/-- Kernel-computable integer power of ten as a rational, for an integer
(possibly negative) exponent. -/
def qpow10 (t : ℤ) : ℚ :=
  if 0 ≤ t then Rat.divInt (10 ^ t.toNat) 1 else Rat.divInt 1 (10 ^ (-t).toNat)

/-- Multiply a rational by `10 ^ t` (kernel-computable). -/
def mulPow10 (x : ℚ) (t : ℤ) : ℚ := qMul x (qpow10 t)

/-- Fuel-based floor logarithm base 10 (`natLogAux n n` is `⌊log₁₀ n⌋` for
`n ≥ 1`).  Written with explicit fuel so that the kernel can evaluate it. -/
def natLogAux : ℕ → ℕ → ℕ
  | 0, _ => 0
  | fuel + 1, n => if n < 10 then 0 else natLogAux fuel (n / 10) + 1

/-- Floor logarithm base 10 of a natural number (0 at 0). -/
def natLog10 (n : ℕ) : ℕ := natLogAux n n

/-- Decimal exponent of a positive rational: the unique `e` with
`10 ^ e ≤ q < 10 ^ (e + 1)`.  This is the exponent ECMAScript's
`toPrecision` computes for its significant-figure rounding. -/
def decExp (q : ℚ) : ℤ :=
  let e0 : ℤ := (natLog10 q.num.natAbs : ℤ) - (natLog10 q.den : ℤ)
  if qpow10 e0 ≤ q then e0 else e0 - 1

/-- Value semantics of `x.toPrecision(5)` followed by `parseFloat`, for a
positive rational: round to 5 significant decimal digits, ties away from
zero (for positive input, ties up). -/
def sig5pos (x : ℚ) : ℚ :=
  mulPow10 ((roundHalfUp (mulPow10 x (4 - decExp x)) : ℤ) : ℚ) (decExp x - 4)

/-- Value semantics of `parseFloat(x.toPrecision(5))` on any rational:
ECMAScript applies the digit rounding to `|x|` and re-attaches the sign. -/
def sig5 (x : ℚ) : ℚ :=
  if x = 0 then 0 else if 0 < x then sig5pos x else -(sig5pos (-x))

/-- Mantissa selected by `x.toFixed(d)`: the integer `n` minimizing
`|n / 10^d - x|`, ties resolved to the larger `n`. -/
def fixedMantissa (d : ℕ) (x : ℚ) : ℤ := roundHalfUp (mulPow10 x (d : ℤ))

/-- Fuel-based little-endian decimal digits of a natural number
(`natDigitsAux n n` for fuel). -/
def natDigitsAux : ℕ → ℕ → List ℕ
  | 0, _ => []
  | _ + 1, 0 => []
  | fuel + 1, n + 1 => (n + 1) % 10 :: natDigitsAux fuel ((n + 1) / 10)

/-- Little-endian decimal digits of a natural number (empty at 0). -/
def natDigits (n : ℕ) : List ℕ := natDigitsAux n n

/-- Decimal digit characters of a natural number, most significant first
(the character sequence of JavaScript's `String(n)` for a natural). -/
def natChars (n : ℕ) : List Char :=
  if n = 0 then ['0'] else (natDigits n).reverse.map Nat.digitChar

/-- Removal of trailing decimal zeros from a scaled decimal `k / 10 ^ d`:
returns `(k', d')` with `k' / 10 ^ d' = k / 10 ^ d` and either `d' = 0` or
`k'` not divisible by 10.  This is the value-level content of the
`replace(/\.?0+$/, '')` step (and of `Number.prototype.toString`, which never
prints trailing fractional zeros). -/
def stripZeros : ℤ → ℕ → ℤ × ℕ
  | k, 0 => (k, 0)
  | k, d + 1 => if k % 10 = 0 then stripZeros (k / 10) d else (k, d + 1)

/-- Plain decimal string of the value `k / 10 ^ d` with trailing fractional
zeros stripped: sign, integer part, and — when a nonzero fractional part
remains — a dot followed by the fractional digits left-padded to their
width.  This renders exactly what the JavaScript code produces via
`toFixed`/`toString` plus the trailing-zero-stripping regex. -/
def renderParts (k : ℤ) (d : ℕ) : String :=
  let sign : List Char := if k < 0 then ['-'] else []
  let n : ℕ := k.natAbs
  if d = 0 then (sign ++ natChars n).asString
  else
    let ip := natChars (n / 10 ^ d)
    let fpRaw := natChars (n % 10 ^ d)
    let fp := List.replicate (d - fpRaw.length) '0' ++ fpRaw
    (sign ++ ip ++ '.' :: fp).asString

/-- Decimal rendering of `k / 10 ^ d`: strip trailing fractional zeros, then
print the sign, the integer part and the remaining fractional digits. -/
def renderDec (k : ℤ) (d : ℕ) : String := renderParts (stripZeros k d).1 (stripZeros k d).2

/-- Numeric value of a decimal digit character. -/
def charDigit (c : Char) : ℕ := c.toNat - 48

/-- Value of a little-endian digit list. -/
def ofDigitsLE : List ℕ → ℕ
  | [] => 0
  | d :: ds => d + 10 * ofDigitsLE ds

/-- Value of a big-endian decimal digit character list. -/
def parseNatChars (cs : List Char) : ℕ := ofDigitsLE ((cs.map charDigit).reverse)

/-- Value of an unsigned decimal character string `intpart[.fracpart]`
(the exact-value semantics of `parseFloat` on such a string). -/
def parseDecChars (cs : List Char) : ℚ :=
  let ip := cs.takeWhile (fun c => decide (c ≠ '.'))
  let fp := (cs.dropWhile (fun c => decide (c ≠ '.'))).drop 1
  qAdd (Rat.divInt (parseNatChars ip) 1)
    (Rat.divInt (parseNatChars fp) (10 ^ fp.length))

/-- Value of a (possibly signed) plain decimal string, the exact-value
semantics of JavaScript's `parseFloat` on the strings this code produces. -/
def parseDec (s : String) : ℚ :=
  match s.toList with
  | '-' :: cs => -(parseDecChars cs)
  | cs => parseDecChars cs

/-- Number of digits printed after the decimal point of a decimal string
(0 when no point is present). -/
def fracCount (s : String) : ℕ :=
  if '.' ∈ s.toList then ((s.toList.reverse).takeWhile (fun c => decide (c ≠ '.'))).length
  else 0

/-- Model of `roundPrice(price, szDecimals, isSpot)` (src/unnamed/part_006
lines 1216–1235): round to 5 significant figures (`toPrecision(5)`), then
clamp to `MAX_DECIMALS - szDecimals` decimal places (`toFixed`), then print
with trailing zeros stripped.  `MAX_DECIMALS` is 8 for spot and 6 otherwise.
The model requires `szDecimals ≤ MAX_DECIMALS` to be meaningful — in
JavaScript a negative `toFixed` argument throws a `RangeError`. -/
def roundPrice (price : ℚ) (szDecimals : ℕ) (isSpot : Bool) : String :=
  let maxDecimals : ℕ := if isSpot then 8 else 6
  let decimalsAllowed := maxDecimals - szDecimals
  renderDec (fixedMantissa decimalsAllowed (sig5 price)) decimalsAllowed

/-- Model of `roundSize(size, szDecimals)` (src/unnamed/part_006 lines
1242–1258): `Math.round(size / 10^-d) * 10^-d`, formatted by `toFixed(d)`
with trailing zeros stripped. -/
def roundSize (size : ℚ) (szDecimals : ℕ) : String :=
  renderDec (roundHalfUp (mulPow10 size (szDecimals : ℤ))) szDecimals

/-!
Sliding-window rate limiter (`src/utils/rate-limiter.js`).  JavaScript reads
the clock through `Date.now()`; the model passes the current time `now`
explicitly and the mutable `this.requests` array as explicit state.
-/

/-- State of `SlidingWindowRateLimiter`: configuration plus the recorded
request timestamps, oldest first. -/
structure SlidingWindowRateLimiter where
  maxRequests : ℕ
  windowMs : ℕ
  requests : List ℕ
deriving DecidableEq

/-- Model of `cleanup()` (rate-limiter.js lines 34–38): drop every timestamp
with `now - timestamp ≥ windowMs`. -/
def SlidingWindowRateLimiter.cleanup (l : SlidingWindowRateLimiter) (now : ℕ) :
    SlidingWindowRateLimiter :=
  { l with requests := l.requests.filter (fun t => decide (now - t < l.windowMs)) }

/-- Model of `canRequest()` (lines 11–14): purge, then report whether a slot
is free.  Returns the answer together with the post-call state. -/
def SlidingWindowRateLimiter.canRequest (l : SlidingWindowRateLimiter) (now : ℕ) :
    Bool × SlidingWindowRateLimiter :=
  let l1 := l.cleanup now
  (decide (l1.requests.length < l1.maxRequests), l1)

/-- Model of `tryRequest()` (lines 16–25): purge, refuse when the window is
full, otherwise record `now` and admit. -/
def SlidingWindowRateLimiter.tryRequest (l : SlidingWindowRateLimiter) (now : ℕ) :
    Bool × SlidingWindowRateLimiter :=
  let l1 := l.cleanup now
  if l1.maxRequests ≤ l1.requests.length then (false, l1)
  else (true, { l1 with requests := l1.requests ++ [now] })

/-- Run a sequence of `tryRequest()` calls at the given call times, returning
the list of admitted call times and the final limiter state. -/
def runTry (l : SlidingWindowRateLimiter) : List ℕ → List ℕ × SlidingWindowRateLimiter
  | [] => ([], l)
  | t :: ts =>
    let r := l.tryRequest t
    let rest := runTry r.2 ts
    ((if r.1 then [t] else []) ++ rest.1, rest.2)

/-- Number of elements of `l` inside the half-open 1000 ms span
`[T, T + 1000)`. -/
def countSpan (T : ℕ) (l : List ℕ) : ℕ :=
  (l.filter (fun t => decide (T ≤ t ∧ t < T + 1000))).length

/-!
Request correlator (`src/unnamed/part_006`): `requestL2Book` (lines 346–398)
allocates `id := ++this.requestId`, stores a `PendingRequest` with a 10 s
timeout that deletes the entry and rejects, and `handleMessage`
(lines 188–215) resolves and deletes the entry on a matching `post` response,
ignoring unknown ids.  The model records promise settlements in a log.
-/

/-- Settlement of a push-channel request promise: a correlated response
(error flag as in `response.type === 'error'`) or the 10 s timeout rejection
(`RequestTimeout`). -/
inductive CorrRes
  | response (isError : Bool)
  | timeout
deriving DecidableEq

/-- Events touching the pending-request table: sending a new request,
the firing of a stored timeout for the given id, and the arrival of a
`channel: 'post'` frame carrying the given id. -/
inductive CorrEvent
  | send
  | timeoutFire (id : ℕ)
  | post (id : ℕ) (isError : Bool)
deriving DecidableEq

/-- Correlator state: the monotonically increasing `requestId` counter, the
ids with a live `PendingRequest` entry, and the log of promise settlements. -/
structure CorrState where
  requestId : ℕ
  pending : List ℕ
  log : List (ℕ × CorrRes)
deriving DecidableEq

/-- One correlator step.  `send` allocates `requestId + 1` and registers it;
`timeoutFire id` models the `setTimeout` callback (lines 375–380): only if
the id is still pending it deletes the entry and rejects with the timeout
error; `post id e` models `handleMessage` (lines 188–206): only if the id is
pending it deletes the entry and settles the promise, otherwise the frame is
ignored. -/
def corrStep (s : CorrState) : CorrEvent → CorrState
  | .send => ⟨s.requestId + 1, s.pending ++ [s.requestId + 1], s.log⟩
  | .timeoutFire id =>
    if id ∈ s.pending then ⟨s.requestId, s.pending.erase id, s.log ++ [(id, .timeout)]⟩
    else s
  | .post id isError =>
    if id ∈ s.pending then ⟨s.requestId, s.pending.erase id, s.log ++ [(id, .response isError)]⟩
    else s

/-- Correlator run from the freshly constructed connector
(`this.requestId = 0`, empty `pendingRequests`). -/
def corrRun (evs : List CorrEvent) : CorrState :=
  evs.foldl corrStep ⟨0, [], []⟩

/-- Number of settlements the log records for a given request id. -/
def resCount (id : ℕ) (s : CorrState) : ℕ :=
  (s.log.filter (fun e => decide (e.1 = id))).length

/-- Correlator invariant: pending ids are distinct and no larger than the
id counter, settled ids are no larger than the counter, a pending id is
still unsettled, and no id ever settles twice. -/
def corrInv (s : CorrState) : Prop :=
  s.pending.Nodup ∧
  (∀ id ∈ s.pending, id ≤ s.requestId) ∧
  (∀ e ∈ s.log, e.1 ≤ s.requestId) ∧
  (∀ id ∈ s.pending, resCount id s = 0) ∧
  (∀ id, resCount id s ≤ 1)

/-!
Reconnection state machine (`src/unnamed/part_006`): the `close` handler
(lines 145–156), `handleReconnect` (lines 799–833) and the retry callback it
schedules.  `pendingAttempt` models the one `connect()` attempt scheduled by
`handleReconnect`'s `setTimeout`; `fallbackEmits` counts emissions of the
`'fallback'` notification; `restPolling` is `restPollTimer !== null`.
-/

/-- Transport-manager state relevant to reconnection. -/
structure ReconnState where
  reconnecting : Bool
  intentionalDisconnect : Bool
  reconnectAttempts : ℕ
  maxReconnectAttempts : ℕ
  useRestFallback : Bool
  restPolling : Bool
  fallbackEmits : ℕ
  pendingAttempt : Bool
deriving DecidableEq

/-- Model of `handleReconnect()` (lines 799–833): bail out when already
reconnecting; otherwise mark reconnecting, bump the attempt counter; beyond
`maxReconnectAttempts` switch permanently to REST fallback, start REST
polling and emit the fallback notification (and schedule nothing), else
schedule one delayed `connect()` attempt. -/
def handleReconnect (s : ReconnState) : ReconnState :=
  if s.reconnecting then s
  else
    let s1 := { s with reconnecting := true, reconnectAttempts := s.reconnectAttempts + 1 }
    if s1.maxReconnectAttempts < s1.reconnectAttempts then
      { s1 with useRestFallback := true, restPolling := true,
                fallbackEmits := s1.fallbackEmits + 1 }
    else { s1 with pendingAttempt := true }

/-- Model of the scheduled `connect()` attempt failing (lines 823–831): the
catch handler clears `reconnecting` and calls `handleReconnect()` again.
Without a scheduled attempt nothing can fail, so the event is a no-op. -/
def connectFailed (s : ReconnState) : ReconnState :=
  if s.pendingAttempt then
    handleReconnect { s with pendingAttempt := false, reconnecting := false }
  else s

/-- Model of the scheduled `connect()` attempt succeeding (the `open` handler,
lines 105–126): clears `reconnecting`, resets the attempt counter and the
REST-fallback flag. -/
def connectSucceeded (s : ReconnState) : ReconnState :=
  if s.pendingAttempt then
    { s with pendingAttempt := false, reconnecting := false,
             reconnectAttempts := 0, useRestFallback := false }
  else s

/-- Model of the WebSocket `close` handler (lines 145–156): calls
`handleReconnect()` unless a reconnect cycle is already running or the
disconnect was intentional. -/
def closeEvent (s : ReconnState) : ReconnState :=
  if ¬s.reconnecting ∧ ¬s.intentionalDisconnect then handleReconnect s else s

/-- External events driving the reconnection machine. -/
inductive ReconnEvent
  | close
  | fail
  | success
deriving DecidableEq

/-- Dispatch of a reconnection event. -/
def reconnStep (s : ReconnState) : ReconnEvent → ReconnState
  | .close => closeEvent s
  | .fail => connectFailed s
  | .success => connectSucceeded s

/-- Fold a list of reconnection events. -/
def reconnRun (evs : List ReconnEvent) (s : ReconnState) : ReconnState :=
  evs.foldl reconnStep s

/-- State of a healthy connected transport manager with the given
`maxReconnectAttempts`, just before its connection drops. -/
def initReconn (m : ℕ) : ReconnState :=
  ⟨false, false, 0, m, false, false, 0, false⟩

/-- Iterate `connectFailed` (consecutive failed reconnect attempts). -/
def failIter : ℕ → ReconnState → ReconnState
  | 0, s => s
  | n + 1, s => failIter n (connectFailed s)

/-!
Staleness monitoring (`src/unnamed/part_006`, `startStalenessMonitoring`,
lines 690–726).  `books` maps an instrument to the `timestamp` of its cached
`OrderbookSnapshot`, `none` when no snapshot was ever received.
-/

/-- Transport-manager state read by the 10-second staleness check. -/
structure StaleState where
  connected : Bool
  useRestFallback : Bool
  restPollActive : Bool
  subs : List String
  books : String → Option ℕ
  stalenessThreshold : ℕ
  tempPollStarts : ℕ

/-- Model of the `anyStale` loop (lines 695–712): an instrument counts as
stale only when a snapshot exists (`if (!orderbook) continue;`) and its age
exceeds the threshold. -/
def anyStaleCheck (subs : List String) (books : String → Option ℕ)
    (now threshold : ℕ) : Bool :=
  subs.any (fun c =>
    match books c with
    | none => false
    | some ts => decide (threshold < now - ts))

/-- Model of one tick of the staleness interval (lines 690–726): do nothing
unless connected and not in permanent fallback; start temporary REST polling
when something is stale and polling is off; stop non-permanent polling when
everything is fresh. -/
def stalenessTick (st : StaleState) (now : ℕ) : StaleState :=
  if ¬st.connected ∨ st.useRestFallback then st
  else
    let anyStale := anyStaleCheck st.subs st.books now st.stalenessThreshold
    let st1 :=
      if anyStale ∧ ¬st.restPollActive then
        { st with restPollActive := true, tempPollStarts := st.tempPollStarts + 1 }
      else st
    if ¬anyStale ∧ st1.restPollActive ∧ ¬st1.useRestFallback then
      { st1 with restPollActive := false }
    else st1

/-!
Order construction and dispatch (`src/unnamed/part_006`):
`createMarketOrder` (lines 1355–1458), `createOrderWebSocket`
(lines 1463–1518), `createOrderRest` (lines 1523–1557).  Asynchronous
I/O is abstracted: asset metadata (`getAssetId`/`getAssetInfo`) is passed
in resolved, the two reads of the orderbook cache (initial and the one
retry after 500 ms) are passed as `ba1`/`ba2`, and the externally visible
actions (signing, sends, rate-limiter admissions) are reported as an
ordered effect list.
-/

/-- Externally visible actions of the order/request paths.  The limiter
effects are produced by the admission preludes of `requestL2Book`
(lines 336–356: inflight cap, `canRequest`, `tryRequest`) and
`requestL2BookRest` (line 564: `waitForSlot`). -/
inductive OrderEffect
  | sign
  | wsSend
  | restSend
  | wsLimiterTry
  | restLimiterTry
  | inflightCapCheck
deriving DecidableEq

/-- Errors thrown on the order paths (spec taxonomy names). -/
inductive OrderError
  | walletRequired
  | noMarketData
  | belowMinimumNotional
  | notConnected
  | tooManyInflight
  | rateLimited
deriving DecidableEq

/-- Transport that carried a dispatched order. -/
inductive Transport
  | ws
  | rest
deriving DecidableEq

/-- Cached best bid/ask as read by `getBidAsk`: each side is `none` when the
book half is missing (`null` in JavaScript). -/
structure BidAsk where
  bid : Option ℚ
  ask : Option ℚ
deriving DecidableEq

/-- Options of `createMarketOrder` used by the model. -/
structure OrderOptions where
  overrideMidPrice : Option ℚ
  slippage : Option ℚ
  reduceOnly : Bool
  useRest : Bool
  isSpot : Bool
  cloid : Option String
  vaultAddress : Option String
deriving DecidableEq

/-- Wire form of one order (`{a, b, p, s, r, t: {limit: {tif: 'Ioc'}}}`,
optional `c`). -/
structure OrderRequest where
  a : ℕ
  b : Bool
  p : String
  s : String
  r : Bool
  tif : String
  c : Option String
deriving DecidableEq

/-- Wire form of the order action (`{type: 'order', orders, grouping: 'na'}`). -/
structure OrderAction where
  type : String
  orders : List OrderRequest
  grouping : String
deriving DecidableEq

/-- Truthiness of a nullable number as JavaScript sees it (`null` and `0` are
falsy). -/
def qTruthy (v : Option ℚ) : Bool :=
  match v with
  | none => false
  | some x => decide (x ≠ 0)

/-- Usability test `!bidAsk || !bidAsk.bid || !bidAsk.ask` negated. -/
def bidAskUsable (ba : Option BidAsk) : Bool :=
  match ba with
  | none => false
  | some b => qTruthy b.bid && qTruthy b.ask

/-- Model of the mid-price resolution of `createMarketOrder`
(lines 1372–1393): the explicit override wins; otherwise the cached book is
read, re-read once after the 500 ms pause, and the call fails with
`NoMarketData` when both reads are unusable. -/
def resolveMid (override : Option ℚ) (ba1 ba2 : Option BidAsk) : Except OrderError ℚ :=
  match override with
  | some m => .ok m
  | none =>
    match (if bidAskUsable ba1 then ba1 else ba2) with
    | some b =>
      match b.bid, b.ask with
      | some bv, some av =>
        if decide (bv ≠ 0) && decide (av ≠ 0) then
          .ok (qMul (qAdd bv av) (Rat.divInt 1 2))
        else .error .noMarketData
      | _, _ => .error .noMarketData
    | none => .error .noMarketData

/-- Model of line 1400: `slippage > 1 ? slippage / 100 : slippage`. -/
def slippageDecimal (slippage : ℚ) : ℚ :=
  if 1 < slippage then mulPow10 slippage (-2) else slippage

/-- Model of lines 1401–1406: limit price offset from the mid by the
slippage fraction, added for buys, subtracted for sells. -/
def limitPriceCalc (mid : ℚ) (isBuy : Bool) (slip : ℚ) : ℚ :=
  if isBuy then qMul mid (qAdd 1 slip) else qMul mid (qSub 1 slip)

/-- Model of `createOrderWebSocket` (lines 1463–1518): requires the push
connection, then signs and sends the post frame.  No rate limiter and no
inflight cap appear in this function. -/
def createOrderWebSocket (connected : Bool) (action : OrderAction) :
    Except OrderError (OrderAction × Transport) × List OrderEffect :=
  if connected then (.ok (action, .ws), [.sign, .wsSend])
  else (.error .notConnected, [])

/-- Model of `createOrderRest` (lines 1523–1557): signs and posts to the
exchange REST endpoint.  No rate limiter appears in this function. -/
def createOrderRest (action : OrderAction) :
    Except OrderError (OrderAction × Transport) × List OrderEffect :=
  (.ok (action, .rest), [.sign, .restSend])

/-- Model of `createMarketOrder(coin, side, size, options)` (lines
1355–1458).  `hasWallet`/`hasSigner` reflect the credential check;
`assetId`/`szDecimals` are the resolved asset metadata; `ba1`/`ba2` the two
orderbook-cache reads; the result carries the wire action and the transport
chosen at lines 1452–1457. -/
def createMarketOrder (hasWallet hasSigner : Bool) (assetId szDecimals : ℕ)
    (connected : Bool) (side : String) (size : ℚ) (opts : OrderOptions)
    (ba1 ba2 : Option BidAsk) :
    Except OrderError (OrderAction × Transport) × List OrderEffect :=
  if ¬(hasWallet ∧ hasSigner) then (.error .walletRequired, [])
  else
    let isBuy := side = "buy"
    let slippage := opts.slippage.getD (Rat.divInt 5 100)
    match resolveMid opts.overrideMidPrice ba1 ba2 with
    | .error e => (.error e, [])
    | .ok mid =>
      let limitPrice := limitPriceCalc mid isBuy (slippageDecimal slippage)
      let limitPriceStr := roundPrice limitPrice szDecimals opts.isSpot
      let sizeStr := roundSize size szDecimals
      let notional := qMul (parseDec limitPriceStr) (parseDec sizeStr)
      if notional < 10 then (.error .belowMinimumNotional, [])
      else
        let order : OrderRequest :=
          ⟨assetId, isBuy, limitPriceStr, sizeStr, opts.reduceOnly, "Ioc", opts.cloid⟩
        let action : OrderAction := ⟨"order", [order], "na"⟩
        if connected ∧ ¬opts.useRest then createOrderWebSocket connected action
        else createOrderRest action

/-- Model of the admission prelude of `requestL2Book` (lines 336–356): the
inflight cap is checked, then `canRequest`, then — inside the promise —
`tryRequest` consumes a push-limiter slot before the frame is sent.  This is
the rate-limited path the spec describes; the order path above has no
counterpart to it. -/
def requestL2BookAdmit (pendingCount maxInflight : ℕ)
    (wsLimiter : SlidingWindowRateLimiter) (now : ℕ) :
    Except OrderError SlidingWindowRateLimiter × List OrderEffect :=
  if maxInflight ≤ pendingCount then (.error .tooManyInflight, [.inflightCapCheck])
  else if ¬(wsLimiter.canRequest now).1 then
    (.error .rateLimited, [.inflightCapCheck])
  else
    let r := wsLimiter.tryRequest now
    if r.1 then (.ok r.2, [.inflightCapCheck, .wsLimiterTry, .wsSend])
    else (.error .rateLimited, [.inflightCapCheck, .wsLimiterTry])

/-!
Bridge lemmas: the kernel-computable arithmetic helpers agree with the
ordinary field operations on `ℚ`.
-/

/-- Bridge: `qAdd` is addition. -/
theorem qAdd_eq (a b : ℚ) : qAdd a b = a + b := by
  rw [qAdd]
  conv_rhs => rw [← Rat.num_divInt_den a, ← Rat.num_divInt_den b]
  rw [Rat.divInt_add_divInt _ _ (by exact_mod_cast a.den_nz) (by exact_mod_cast b.den_nz)]

/-- Bridge: `qSub` is subtraction. -/
theorem qSub_eq (a b : ℚ) : qSub a b = a - b := by
  rw [qSub, qAdd_eq]
  ring

/-- Bridge: `qMul` is multiplication. -/
theorem qMul_eq (a b : ℚ) : qMul a b = a * b := by
  rw [qMul]
  conv_rhs => rw [← Rat.num_divInt_den a, ← Rat.num_divInt_den b]
  rw [Rat.divInt_mul_divInt _ _ (by exact_mod_cast a.den_nz) (by exact_mod_cast b.den_nz)]

/-- Bridge: `qFloor` is the floor. -/
theorem qFloor_eq (q : ℚ) : qFloor q = ⌊q⌋ := by
  rw [qFloor, Rat.floor_def]
  rfl

/-- Bridge: `roundHalfUp` is `⌊· + 1/2⌋`. -/
theorem roundHalfUp_eq (q : ℚ) : roundHalfUp q = ⌊q + 1 / 2⌋ := by
  have h2 : (Rat.divInt 1 2 : ℚ) = 1 / 2 := by
    rw [Rat.divInt_eq_div]
    norm_num
  rw [roundHalfUp, qFloor_eq, qAdd_eq, h2]

/-- Bridge: `qpow10` is the integer power `(10 : ℚ) ^ t`. -/
theorem qpow10_eq (t : ℤ) : qpow10 t = (10 : ℚ) ^ t := by
  rw [qpow10]
  split
  · rename_i h
    rw [Rat.divInt_eq_div]
    push_cast
    rw [← zpow_natCast (10 : ℚ) t.toNat, Int.toNat_of_nonneg h]
    simp
  · rename_i h
    rw [Rat.divInt_eq_div]
    push_cast
    rw [one_div, ← zpow_natCast (10 : ℚ) (-t).toNat, ← zpow_neg,
      Int.toNat_of_nonneg (by omega : (0 : ℤ) ≤ -t)]
    simp

/-- Bridge: `mulPow10 x t` is `x * 10 ^ t`. -/
theorem mulPow10_eq (x : ℚ) (t : ℤ) : mulPow10 x t = x * (10 : ℚ) ^ t := by
  rw [mulPow10, qMul_eq, qpow10_eq]

/-- C5: the claim says integral prices bypass the 5-significant-figure cap,
and the code's own doc comment agrees ("Integer prices always allowed (even
>5 sig figs)"), but `roundPrice` applies `toPrecision(5)` unconditionally:
`roundPrice(123456, 0, false)` evaluates to `"123460"`, not `"123456"`. -/
theorem roundPrice_rounds_integral_prices : roundPrice 123456 0 false = "123460" := by
  decide

/-- C1 (counterexample): a `createMarketOrder` call that reaches dispatch on
the push channel emits the signed frame with no push-limiter admission and no
inflight-cap check, and the same call with the connection down dispatches on
REST with no poll-limiter admission. -/
theorem createMarketOrder_dispatch_without_admission :
    ((createMarketOrder true true 0 0 true "buy" 1
        ⟨some 100, none, false, false, false, none, none⟩ none none).2 =
      [OrderEffect.sign, OrderEffect.wsSend]) ∧
    ((createMarketOrder true true 0 0 false "buy" 1
        ⟨some 100, none, false, false, false, none, none⟩ none none).2 =
      [OrderEffect.sign, OrderEffect.restSend]) := by
  decide

/-- C1 (amended): order dispatch is not rate-limited on either transport —
`createMarketOrder` never consumes a push-limiter slot, never consumes a
poll-limiter slot, and never checks the inflight cap, on any input. -/
theorem createMarketOrder_dispatch_not_rate_limited (hW hS : Bool)
    (aid szd : ℕ) (conn : Bool) (side : String) (size : ℚ) (opts : OrderOptions)
    (ba1 ba2 : Option BidAsk) :
    OrderEffect.wsLimiterTry ∉
      (createMarketOrder hW hS aid szd conn side size opts ba1 ba2).2 ∧
    OrderEffect.restLimiterTry ∉
      (createMarketOrder hW hS aid szd conn side size opts ba1 ba2).2 ∧
    OrderEffect.inflightCapCheck ∉
      (createMarketOrder hW hS aid szd conn side size opts ba1 ba2).2 := by
  cases hm : resolveMid opts.overrideMidPrice ba1 ba2 with
  | error e =>
    simp only [createMarketOrder, hm]
    split_ifs <;> simp
  | ok mid =>
    simp only [createMarketOrder, hm, createOrderWebSocket, createOrderRest]
    split_ifs <;> simp

/-- C2: whenever `createMarketOrder` reaches the notional check with a
resolved mid price and the quantized limit price times the quantized size is
below 10 dollars, the call fails with `BelowMinimumNotional` and performs no
effect at all: no signing, no send on either transport, no rate-limiter
involvement. -/
theorem createMarketOrder_below_min_notional (hW hS : Bool) (aid szd : ℕ)
    (conn : Bool) (side : String) (size : ℚ) (opts : OrderOptions)
    (ba1 ba2 : Option BidAsk) (mid : ℚ)
    (hw : hW = true) (hs : hS = true)
    (hmid : resolveMid opts.overrideMidPrice ba1 ba2 = .ok mid)
    (hnot : qMul
        (parseDec (roundPrice
          (limitPriceCalc mid (decide (side = "buy"))
            (slippageDecimal (opts.slippage.getD (Rat.divInt 5 100))))
          szd opts.isSpot))
        (parseDec (roundSize size szd)) < 10) :
    createMarketOrder hW hS aid szd conn side size opts ba1 ba2 =
      (.error .belowMinimumNotional, []) := by
  subst hw hs
  simp only [createMarketOrder, hmid]
  rw [if_neg (by simp)]
  exact if_pos hnot

/-- C2 (witness): a buy of size 1 at override mid price 1 (limit 1.05,
notional 1.05 < 10) fails with `BelowMinimumNotional` and dispatches
nothing. -/
theorem createMarketOrder_below_min_notional_witness :
    createMarketOrder true true 0 0 true "buy" 1
      ⟨some 1, none, false, false, false, none, none⟩ none none =
      (.error .belowMinimumNotional, []) :=
  createMarketOrder_below_min_notional true true 0 0 true "buy" 1
    ⟨some 1, none, false, false, false, none, none⟩ none none 1
    rfl rfl rfl (by decide)

/-- C9 (counterexample): `canRequest()` is not a pure check — it runs
`cleanup()`, so when a timestamp has expired the recorded-timestamp sequence
changes across the call; likewise a full-window `tryRequest()` returns false
but still purges.  Here `canRequest` at `now = 1000` on recorded `[0]`
leaves `[]`, and `tryRequest` on `⟨max 1, [0, 500]⟩` returns false leaving
`[500]`. -/
theorem canRequest_purges_counterexample :
    ((SlidingWindowRateLimiter.canRequest ⟨3, 1000, [0]⟩ 1000).2.requests ≠ [0]) ∧
    ((SlidingWindowRateLimiter.tryRequest ⟨1, 1000, [0, 500]⟩ 1000).1 = false) ∧
    ((SlidingWindowRateLimiter.tryRequest ⟨1, 1000, [0, 500]⟩ 1000).2.requests ≠ [0, 500]) := by
  decide

/-- C9 (amended): `canRequest()` consumes no slot and records nothing, and a
full-window `tryRequest()` returns false and records nothing; in both cases
the post-state is exactly `cleanup now` — the recorded-timestamp sequence is
unchanged except for the lazy purge of expired timestamps, and is literally
identical whenever no timestamp has expired. -/
theorem canRequest_tryRequest_frame (l : SlidingWindowRateLimiter) (now : ℕ) :
    (l.canRequest now).2 = l.cleanup now ∧
    (l.canRequest now).2.requests.Sublist l.requests ∧
    ((∀ t ∈ l.requests, now - t < l.windowMs) → (l.canRequest now).2.requests = l.requests) ∧
    (l.maxRequests ≤ (l.cleanup now).requests.length →
      (l.tryRequest now).1 = false ∧ (l.tryRequest now).2 = l.cleanup now) := by
  refine ⟨rfl, List.filter_sublist _, ?_, ?_⟩
  · intro h
    simp only [SlidingWindowRateLimiter.canRequest, SlidingWindowRateLimiter.cleanup]
    exact List.filter_eq_self.mpr (fun t ht => by simpa using h t ht)
  · intro hfull
    have hfull2 : (l.cleanup now).maxRequests ≤ (l.cleanup now).requests.length := hfull
    simp only [SlidingWindowRateLimiter.tryRequest]
    rw [if_pos hfull2]
    exact ⟨rfl, rfl⟩

/-- C9 (witness): on a limiter `⟨maxRequests 1, window 1000, [500]⟩` checked
at `now = 600` nothing has expired and the window is full, so both
hypothesised conjuncts apply. -/
theorem canRequest_tryRequest_frame_witness :
    ((SlidingWindowRateLimiter.canRequest ⟨1, 1000, [500]⟩ 600).2.requests = [500]) ∧
    ((SlidingWindowRateLimiter.tryRequest ⟨1, 1000, [500]⟩ 600).1 = false ∧
     (SlidingWindowRateLimiter.tryRequest ⟨1, 1000, [500]⟩ 600).2 =
       SlidingWindowRateLimiter.cleanup ⟨1, 1000, [500]⟩ 600) :=
  ⟨(canRequest_tryRequest_frame ⟨1, 1000, [500]⟩ 600).2.2.1 (by decide),
   (canRequest_tryRequest_frame ⟨1, 1000, [500]⟩ 600).2.2.2 (by decide)⟩

/-- C10: the staleness check skips every subscribed instrument that has no
cached snapshot (`if (!orderbook) continue;`): a snapshotless instrument
contributes nothing to `anyStale`, and when no subscribed instrument has a
snapshot the tick never starts the temporary REST-fallback polling — the
start counter is unchanged and polling can only be on afterwards if it
already was, no matter how large `now` grows. -/
theorem stalenessTick_ignores_missing_snapshots (st : StaleState) (now : ℕ)
    (c : String) (subs : List String)
    (hc : st.books c = none) (hall : ∀ x ∈ st.subs, st.books x = none) :
    anyStaleCheck (c :: subs) st.books now st.stalenessThreshold =
      anyStaleCheck subs st.books now st.stalenessThreshold ∧
    (stalenessTick st now).tempPollStarts = st.tempPollStarts ∧
    ((stalenessTick st now).restPollActive = true → st.restPollActive = true) := by
  have hfalse : anyStaleCheck st.subs st.books now st.stalenessThreshold = false := by
    simp only [anyStaleCheck, List.any_eq_false]
    intro x hx
    simp [hall x hx]
  refine ⟨by simp [anyStaleCheck, hc], ?_, ?_⟩
  · simp only [stalenessTick]
    split
    · rfl
    · rw [hfalse]
      simp only [Bool.false_eq_true, false_and, if_false, not_false_eq_true, true_and]
      split <;> rfl
  · intro h
    simp only [stalenessTick] at h
    revert h
    split
    · exact fun h => h
    · rw [hfalse]
      simp only [Bool.false_eq_true, false_and, if_false, not_false_eq_true, true_and]
      split
      · simp
      · exact fun h => h

/-- C10 (witness): a connected manager subscribed to an instrument that never
received a snapshot, checked far in the future, starts no temporary
polling. -/
theorem stalenessTick_ignores_missing_snapshots_witness :
    (anyStaleCheck ["ETH", "SOL"] (fun _ => none) 1000000000 60000 =
      anyStaleCheck ["SOL"] (fun _ => none) 1000000000 60000) ∧
    ((stalenessTick ⟨true, false, false, ["BTC"], fun _ => none, 60000, 0⟩
        1000000000).tempPollStarts = 0) ∧
    ((stalenessTick ⟨true, false, false, ["BTC"], fun _ => none, 60000, 0⟩
        1000000000).restPollActive = true → false = true) :=
  stalenessTick_ignores_missing_snapshots
    ⟨true, false, false, ["BTC"], fun _ => none, 60000, 0⟩ 1000000000 "ETH" ["SOL"]
    rfl (by simp)

/-- Helper: the first close on a healthy connection schedules reconnect
attempt 1 (when at least one attempt is allowed). -/
theorem closeEvent_initReconn (m : ℕ) (hm : 1 ≤ m) :
    closeEvent (initReconn m) = ⟨true, false, 1, m, false, false, 0, true⟩ := by
  simp only [closeEvent, initReconn, handleReconnect]
  norm_num
  omega

/-- Helper: while attempts remain, a failed attempt schedules the next one. -/
theorem connectFailed_mid (m j : ℕ) (hj : j + 1 ≤ m) :
    connectFailed ⟨true, false, j, m, false, false, 0, true⟩ =
      ⟨true, false, j + 1, m, false, false, 0, true⟩ := by
  simp only [connectFailed, handleReconnect]
  norm_num
  omega

/-- Helper: the failure of attempt `m` pushes the counter past the maximum
and engages the permanent REST fallback, emitting the notification once and
scheduling nothing. -/
theorem connectFailed_final (m : ℕ) :
    connectFailed ⟨true, false, m, m, false, false, 0, true⟩ =
      ⟨true, false, m + 1, m, true, true, 1, false⟩ := by
  simp only [connectFailed, handleReconnect]
  norm_num

/-- Helper: splitting an iteration of failed attempts. -/
theorem failIter_add (a b : ℕ) (s : ReconnState) :
    failIter (a + b) s = failIter b (failIter a s) := by
  induction a generalizing s with
  | zero =>
    rw [Nat.zero_add]
    rfl
  | succ a ih =>
    have h1 : a + 1 + b = (a + b) + 1 := by omega
    rw [h1]
    show failIter (a + b) (connectFailed s) = failIter b (failIter (a + 1) s)
    rw [ih (connectFailed s)]
    rfl

/-- Helper: `k` consecutive failures starting from scheduled attempt `j`
reach scheduled attempt `j + k`, while `j + k ≤ m`. -/
theorem failIter_mid (m k j : ℕ) (hj : 1 ≤ j) (hkj : j + k ≤ m) :
    failIter k (⟨true, false, j, m, false, false, 0, true⟩ : ReconnState) =
      ⟨true, false, j + k, m, false, false, 0, true⟩ := by
  induction k generalizing j with
  | zero => rfl
  | succ k ih =>
    show failIter k (connectFailed _) = _
    rw [connectFailed_mid m j (by omega)]
    rw [ih (j + 1) (by omega) (by omega)]
    congr 1
    omega

/-- Helper: the fallback state absorbs every further event — no event
re-enters `handleReconnect` (`reconnecting` stays true) and no attempt is
pending for `fail`/`success` to act on. -/
theorem reconnStep_fallback_fixed (m : ℕ) (e : ReconnEvent) :
    reconnStep ⟨true, false, m + 1, m, true, true, 1, false⟩ e =
      ⟨true, false, m + 1, m, true, true, 1, false⟩ := by
  cases e <;> simp [reconnStep, closeEvent, connectFailed, connectSucceeded]

/-- Helper: whole event traces leave the fallback state fixed. -/
theorem reconnRun_fallback_fixed (m : ℕ) (evs : List ReconnEvent) :
    reconnRun evs ⟨true, false, m + 1, m, true, true, 1, false⟩ =
      ⟨true, false, m + 1, m, true, true, 1, false⟩ := by
  induction evs with
  | nil => rfl
  | cons e evs ih =>
    show reconnRun evs (reconnStep _ e) = _
    rw [reconnStep_fallback_fixed m e, ih]

/-- C4: after the drop of a healthy connection and `maxReconnectAttempts`
consecutive failed reconnect attempts, the transport manager is permanently
in REST fallback (`useRestFallback` true, REST polling started), the
fallback notification has fired exactly once, no attempt is scheduled, and
every further event (closes, stray attempt outcomes) leaves that state
literally unchanged — so over the whole run the notification count stays 1
and no push-reconnect attempt ever occurs again. -/
theorem reconnect_exhaustion_rest_fallback (m : ℕ) (hm : 1 ≤ m)
    (evs : List ReconnEvent) :
    failIter m (closeEvent (initReconn m)) =
      ⟨true, false, m + 1, m, true, true, 1, false⟩ ∧
    reconnRun evs ⟨true, false, m + 1, m, true, true, 1, false⟩ =
      ⟨true, false, m + 1, m, true, true, 1, false⟩ := by
  constructor
  · obtain ⟨k, hk⟩ : ∃ k, m = k + 1 := ⟨m - 1, by omega⟩
    subst hk
    rw [closeEvent_initReconn (k + 1) hm]
    rw [failIter_add k 1]
    rw [failIter_mid (k + 1) k 1 le_rfl (by omega)]
    rw [Nat.add_comm 1 k]
    exact connectFailed_final (k + 1)
  · exact reconnRun_fallback_fixed m evs

/-- C4 (witness): with `maxReconnectAttempts = 2`, the close plus two failed
attempts land in the fallback state with one emission, and a further
close/fail/success trace changes nothing. -/
theorem reconnect_exhaustion_rest_fallback_witness :
    failIter 2 (closeEvent (initReconn 2)) =
      ⟨true, false, 3, 2, true, true, 1, false⟩ ∧
    reconnRun [.close, .fail, .success] ⟨true, false, 3, 2, true, true, 1, false⟩ =
      ⟨true, false, 3, 2, true, true, 1, false⟩ :=
  reconnect_exhaustion_rest_fallback 2 (by decide) [.close, .fail, .success]

/-- Helper: appending one settlement to the log adds one to the count of its
id and nothing to others. -/
theorem resCount_append_log (log : List (ℕ × CorrRes)) (rid : ℕ) (p : List ℕ)
    (j : ℕ) (r : CorrRes) (id : ℕ) :
    resCount id ⟨rid, p, log ++ [(j, r)]⟩ =
      resCount id ⟨rid, p, log⟩ + (if j = id then 1 else 0) := by
  simp only [resCount, List.filter_append]
  rw [List.length_append]
  congr 1
  by_cases h : j = id <;> simp [List.filter, h]

/-- Helper: the settlement count only reads the log. -/
theorem resCount_log_only (rid rid2 : ℕ) (p p2 : List ℕ)
    (log : List (ℕ × CorrRes)) (id : ℕ) :
    resCount id ⟨rid, p, log⟩ = resCount id ⟨rid2, p2, log⟩ := rfl

/-- Helper: eta expansion for `resCount`. -/
theorem resCount_eta (id : ℕ) (s : CorrState) :
    resCount id ⟨s.requestId, s.pending, s.log⟩ = resCount id s := rfl

/-- Helper: every correlator event preserves the invariant. -/
theorem corrStep_inv (s : CorrState) (h : corrInv s) (e : CorrEvent) :
    corrInv (corrStep s e) := by
  obtain ⟨hnd, hpb, hlb, hp0, h1⟩ := h
  cases e with
  | send =>
    refine ⟨?_, ?_, ?_, ?_, ?_⟩
    · simp only [corrStep]
      rw [List.nodup_append]
      refine ⟨hnd, List.nodup_singleton _, ?_⟩
      intro a ha hb
      have := hpb a ha
      simp at hb
      omega
    · intro id hid
      simp only [corrStep] at hid
      rw [List.mem_append] at hid
      rcases hid with hid | hid
      · have := hpb id hid
        simp only [corrStep]
        omega
      · simp at hid
        simp only [corrStep]
        omega
    · intro e he
      simp only [corrStep] at he ⊢
      have := hlb e he
      omega
    · intro id hid
      simp only [corrStep] at hid ⊢
      rw [List.mem_append] at hid
      rcases hid with hid | hid
      · exact hp0 id hid
      · simp at hid
        subst hid
        simp only [resCount, List.length_eq_zero, List.filter_eq_nil_iff]
        intro e he
        have := hlb e he
        simp only [decide_eq_true_eq]
        omega
    · intro id
      exact h1 id
  | timeoutFire id =>
    simp only [corrStep]
    split
    · rename_i hmem
      refine ⟨hnd.erase id, ?_, ?_, ?_, ?_⟩
      · intro j hj
        exact hpb j (List.mem_of_mem_erase hj)
      · intro e he
        rw [List.mem_append] at he
        rcases he with he | he
        · exact hlb e he
        · simp at he
          subst he
          exact hpb id hmem
      · intro j hj
        rw [hnd.mem_erase_iff] at hj
        rw [resCount_append_log]
        rw [resCount_log_only _ s.requestId _ s.pending, resCount_eta]
        rw [if_neg (fun hh => hj.1 hh.symm)]
        have := hp0 j hj.2
        omega
      · intro j
        rw [resCount_append_log]
        rw [resCount_log_only _ s.requestId _ s.pending, resCount_eta]
        by_cases hij : id = j
        · subst hij
          rw [if_pos rfl]
          have := hp0 id hmem
          omega
        · rw [if_neg hij]
          have := h1 j
          omega
    · exact ⟨hnd, hpb, hlb, hp0, h1⟩
  | post id isError =>
    simp only [corrStep]
    split
    · rename_i hmem
      refine ⟨hnd.erase id, ?_, ?_, ?_, ?_⟩
      · intro j hj
        exact hpb j (List.mem_of_mem_erase hj)
      · intro e he
        rw [List.mem_append] at he
        rcases he with he | he
        · exact hlb e he
        · simp at he
          subst he
          exact hpb id hmem
      · intro j hj
        rw [hnd.mem_erase_iff] at hj
        rw [resCount_append_log]
        rw [resCount_log_only _ s.requestId _ s.pending, resCount_eta]
        rw [if_neg (fun hh => hj.1 hh.symm)]
        have := hp0 j hj.2
        omega
      · intro j
        rw [resCount_append_log]
        rw [resCount_log_only _ s.requestId _ s.pending, resCount_eta]
        by_cases hij : id = j
        · subst hij
          rw [if_pos rfl]
          have := hp0 id hmem
          omega
        · rw [if_neg hij]
          have := h1 j
          omega
    · exact ⟨hnd, hpb, hlb, hp0, h1⟩

/-- Helper: every reachable correlator state satisfies the invariant. -/
theorem corrRun_inv (evs : List CorrEvent) : corrInv (corrRun evs) := by
  have base : corrInv ⟨0, [], []⟩ := by
    refine ⟨List.nodup_nil, ?_, ?_, ?_, ?_⟩ <;> simp [resCount]
  rw [corrRun]
  generalize hs : (⟨0, [], []⟩ : CorrState) = s0
  rw [hs] at base
  clear hs
  induction evs generalizing s0 with
  | nil => exact base
  | cons e evs ih =>
    exact ih (corrStep s0 e) (corrStep_inv s0 base e)

/-- C3: in every reachable correlator state, each request id settles at most
once; when a stored timeout fires for a still-pending id, the promise is
rejected with the timeout error and the `PendingRequest` entry is removed,
after which a late response for that id changes nothing (no second
settlement); and a response carrying an id with no pending entry (already
timed out or foreign) is ignored entirely. -/
theorem push_request_exactly_one_resolution (evs : List CorrEvent) :
    (∀ id, resCount id (corrRun evs) ≤ 1) ∧
    (∀ id, id ∈ (corrRun evs).pending →
      (corrStep (corrRun evs) (.timeoutFire id)).log =
        (corrRun evs).log ++ [(id, .timeout)] ∧
      id ∉ (corrStep (corrRun evs) (.timeoutFire id)).pending ∧
      ∀ b, corrStep (corrStep (corrRun evs) (.timeoutFire id)) (.post id b) =
        corrStep (corrRun evs) (.timeoutFire id)) ∧
    (∀ id b, id ∉ (corrRun evs).pending →
      corrStep (corrRun evs) (.post id b) = corrRun evs) := by
  obtain ⟨hnd, hpb, hlb, hp0, h1⟩ := corrRun_inv evs
  refine ⟨h1, ?_, ?_⟩
  · intro id hid
    have hnotmem : id ∉ (corrStep (corrRun evs) (.timeoutFire id)).pending := by
      simp only [corrStep, if_pos hid]
      intro hmem
      exact ((hnd.mem_erase_iff).mp hmem).1 rfl
    refine ⟨?_, hnotmem, ?_⟩
    · simp only [corrStep, if_pos hid]
    · intro b
      simp only [corrStep]
      rw [if_neg ?_]
      · revert hnotmem
        simp only [corrStep, if_pos hid]
        exact fun h => h
  · intro id b hid
    simp only [corrStep, if_neg hid]

/-- C3 (witness): after two sends, id 1 settles at most once; its timeout
rejects it and removes the entry, a late response for id 1 is then ignored,
and a response for the never-allocated id 5 is ignored. -/
theorem push_request_exactly_one_resolution_witness :
    resCount 1 (corrRun [.send, .send]) ≤ 1 ∧
    (corrStep (corrRun [.send, .send]) (.timeoutFire 1)).log =
      (corrRun [.send, .send]).log ++ [(1, .timeout)] ∧
    1 ∉ (corrStep (corrRun [.send, .send]) (.timeoutFire 1)).pending ∧
    corrStep (corrStep (corrRun [.send, .send]) (.timeoutFire 1)) (.post 1 false) =
      corrStep (corrRun [.send, .send]) (.timeoutFire 1) ∧
    corrStep (corrRun [.send, .send]) (.post 5 false) = corrRun [.send, .send] :=
  ⟨(push_request_exactly_one_resolution [.send, .send]).1 1,
   ((push_request_exactly_one_resolution [.send, .send]).2.1 1 (by decide)).1,
   ((push_request_exactly_one_resolution [.send, .send]).2.1 1 (by decide)).2.1,
   ((push_request_exactly_one_resolution [.send, .send]).2.1 1 (by decide)).2.2 false,
   (push_request_exactly_one_resolution [.send, .send]).2.2 5 false (by decide)⟩

/-- Helper: span counts add over list append. -/
theorem countSpan_append (T : ℕ) (l1 l2 : List ℕ) :
    countSpan T (l1 ++ l2) = countSpan T l1 + countSpan T l2 := by
  simp [countSpan, List.filter_append]

/-- Helper: when the call instant `t` lies in the span `[T, T + 1000)`, every
element of the span is alive at `t`, so the span count is bounded by the
live-window length. -/
theorem countSpan_le_live (acc : List ℕ) (t T : ℕ) (hT : T ≤ t) (htT : t < T + 1000) :
    countSpan T acc ≤ (acc.filter (fun a => decide (t - a < 1000))).length := by
  rw [countSpan]
  have h : acc.filter (fun a => decide (T ≤ a ∧ a < T + 1000)) =
      (acc.filter (fun a => decide (t - a < 1000))).filter
        (fun a => decide (T ≤ a ∧ a < T + 1000)) := by
    rw [List.filter_filter]
    apply List.filter_congr
    intro a _
    by_cases hspan : T ≤ a ∧ a < T + 1000
    · have hlive : t - a < 1000 := by omega
      simp [hspan, hlive]
    · simp [hspan]
  rw [h]
  exact List.length_filter_le _ _

/-- Helper: unfolding one `tryRequest` call of a run. -/
theorem runTry_cons (l : SlidingWindowRateLimiter) (t : ℕ) (ts : List ℕ) :
    runTry l (t :: ts) =
      ((if (l.tryRequest t).1 then [t] else []) ++ (runTry (l.tryRequest t).2 ts).1,
       (runTry (l.tryRequest t).2 ts).2) := rfl

/-- Helper: an admitted call contributes its time to the admitted list. -/
theorem runTry_cons_true (l : SlidingWindowRateLimiter) (t : ℕ) (ts : List ℕ)
    (h : (l.tryRequest t).1 = true) :
    runTry l (t :: ts) =
      (t :: (runTry (l.tryRequest t).2 ts).1, (runTry (l.tryRequest t).2 ts).2) := by
  rw [runTry_cons, if_pos h]
  rfl

/-- Helper: a refused call contributes nothing. -/
theorem runTry_cons_false (l : SlidingWindowRateLimiter) (t : ℕ) (ts : List ℕ)
    (h : (l.tryRequest t).1 = false) :
    runTry l (t :: ts) =
      ((runTry (l.tryRequest t).2 ts).1, (runTry (l.tryRequest t).2 ts).2) := by
  rw [runTry_cons, h]
  rfl

/-- Helper (main induction): running `tryRequest` at nondecreasing call times
from a state whose recorded list is exactly the live window of the already
admitted calls keeps every 1000 ms span at no more than 3 admissions. -/
theorem runTry_span_aux (ts : List ℕ) :
    ∀ (acc : List ℕ) (τ : ℕ),
      (∀ a ∈ acc, a ≤ τ) →
      (∀ t ∈ ts, τ ≤ t) →
      List.Pairwise (· ≤ ·) ts →
      (∀ T, countSpan T acc ≤ 3) →
      ∀ T, countSpan T
        (acc ++ (runTry ⟨3, 1000, acc.filter (fun a => decide (τ - a < 1000))⟩ ts).1) ≤ 3 := by
  induction ts with
  | nil =>
    intro acc τ hacc hts hp hpre T
    simpa [runTry] using hpre T
  | cons t ts ih =>
    intro acc τ hacc hts hp hpre T
    have hτt : τ ≤ t := hts t (List.mem_cons_self t ts)
    have hts' : ∀ u ∈ ts, t ≤ u := (List.pairwise_cons.mp hp).1
    have hp' : List.Pairwise (· ≤ ·) ts := (List.pairwise_cons.mp hp).2
    have hfcomp :
        (acc.filter (fun a => decide (τ - a < 1000))).filter
            (fun a => decide (t - a < 1000)) =
          acc.filter (fun a => decide (t - a < 1000)) := by
      rw [List.filter_filter]
      apply List.filter_congr
      intro a ha
      have haτ : a ≤ τ := hacc a ha
      by_cases hlive : t - a < 1000
      · have hl2 : τ - a < 1000 := by omega
        simp [hlive, hl2]
      · simp [hlive]
    have hclean :
        SlidingWindowRateLimiter.cleanup
            ⟨3, 1000, acc.filter (fun a => decide (τ - a < 1000))⟩ t =
          ⟨3, 1000, acc.filter (fun a => decide (t - a < 1000))⟩ := by
      simp only [SlidingWindowRateLimiter.cleanup]
      rw [hfcomp]
    by_cases hfull : 3 ≤ (acc.filter (fun a => decide (t - a < 1000))).length
    · have htry :
          SlidingWindowRateLimiter.tryRequest
              ⟨3, 1000, acc.filter (fun a => decide (τ - a < 1000))⟩ t =
            (false, ⟨3, 1000, acc.filter (fun a => decide (t - a < 1000))⟩) := by
        simp only [SlidingWindowRateLimiter.tryRequest]
        rw [hclean]
        rw [if_pos hfull]
      rw [runTry_cons_false _ _ _ (by rw [htry]), htry]
      exact ih acc t (fun a ha => le_trans (hacc a ha) hτt) hts' hp' hpre T
    · have hsingle : [t].filter (fun a => decide (t - a < 1000)) = [t] := by
        simp
      have happ : acc.filter (fun a => decide (t - a < 1000)) ++ [t] =
          (acc ++ [t]).filter (fun a => decide (t - a < 1000)) := by
        rw [List.filter_append, hsingle]
      have htry :
          SlidingWindowRateLimiter.tryRequest
              ⟨3, 1000, acc.filter (fun a => decide (τ - a < 1000))⟩ t =
            (true, ⟨3, 1000, (acc ++ [t]).filter (fun a => decide (t - a < 1000))⟩) := by
        simp only [SlidingWindowRateLimiter.tryRequest]
        rw [hclean]
        rw [if_neg hfull]
        rw [happ]
      rw [runTry_cons_true _ _ _ (by rw [htry]), htry]
      have hacc' : ∀ a ∈ acc ++ [t], a ≤ t := by
        intro a ha
        rw [List.mem_append] at ha
        rcases ha with ha | ha
        · exact le_trans (hacc a ha) hτt
        · simp at ha
          omega
      have hpre' : ∀ T', countSpan T' (acc ++ [t]) ≤ 3 := by
        intro T'
        rw [countSpan_append]
        by_cases hsp : T' ≤ t ∧ t < T' + 1000
        · have h1 : countSpan T' [t] ≤ 1 := by
            rw [countSpan]
            simpa using List.length_filter_le (fun a => decide (T' ≤ a ∧ a < T' + 1000)) [t]
          have h2 : countSpan T' acc ≤ 2 := by
            have := countSpan_le_live acc t T' hsp.1 hsp.2
            omega
          omega
        · have h1 : countSpan T' [t] = 0 := by
            simp [countSpan, List.filter, hsp]
          have := hpre T'
          omega
      have hres := ih (acc ++ [t]) t hacc' hts' hp' hpre' T
      rw [List.append_cons]
      exact hres

/-- C8: for a limiter configured `(maxRequests 3, windowMs 1000)`, (1) over
any sequence of `tryRequest()` calls at nondecreasing times, at most 3 calls
inside any 1000 ms span `[T, T + 1000)` return true — so a 4th call inside
the span is refused — and (2) with a full window of three live timestamps,
`tryRequest(now)` returns true exactly when the oldest recorded timestamp
has become 1000 ms old (`t0 + 1000 ≤ now`), i.e. the first admission happens
at the instant the oldest timestamp expires. -/
theorem rate_limiter_window_bound (ts : List ℕ) (hts : List.Pairwise (· ≤ ·) ts) :
    (∀ T, countSpan T (runTry ⟨3, 1000, []⟩ ts).1 ≤ 3) ∧
    (∀ t0 t1 t2 now, t0 ≤ t1 → t1 ≤ t2 → t2 ≤ now →
      (SlidingWindowRateLimiter.tryRequest ⟨3, 1000, [t0, t1, t2]⟩ now).1 =
        decide (t0 + 1000 ≤ now)) := by
  constructor
  · intro T
    have := runTry_span_aux ts [] 0 (by simp) (fun t _ => Nat.zero_le t) hts
      (fun T' => by simp [countSpan]) T
    simpa using this
  · intro t0 t1 t2 now h01 h12 h2n
    by_cases h : t0 + 1000 ≤ now
    · rw [decide_eq_true h]
      have e0 : decide (now - t0 < 1000) = false := by
        simp only [decide_eq_false_iff_not]
        omega
      have hc : List.filter (fun a => decide (now - a < 1000)) [t0, t1, t2] =
          List.filter (fun a => decide (now - a < 1000)) [t1, t2] := by
        rw [List.filter_cons, e0]
        simp
      have hlen : (List.filter (fun a => decide (now - a < 1000)) [t1, t2]).length ≤ 2 := by
        simpa using List.length_filter_le (fun a => decide (now - a < 1000)) [t1, t2]
      simp only [SlidingWindowRateLimiter.tryRequest, SlidingWindowRateLimiter.cleanup]
      rw [hc]
      rw [if_neg (by omega)]
    · rw [decide_eq_false h]
      have hc : List.filter (fun a => decide (now - a < 1000)) [t0, t1, t2] = [t0, t1, t2] := by
        apply List.filter_eq_self.mpr
        intro a ha
        simp only [List.mem_cons, List.not_mem_nil, or_false] at ha
        rcases ha with rfl | rfl | rfl <;>
          · simp only [decide_eq_true_eq]
            omega
      simp only [SlidingWindowRateLimiter.tryRequest, SlidingWindowRateLimiter.cleanup]
      rw [hc]
      rw [if_pos (by simp)]

/-- C8 (witness): four quick calls admit at most three, the 4th call at
`now = 999` on the full window `[0, 100, 200]` is refused, and at
`now = 1000` — the instant timestamp 0 expires — it is admitted. -/
theorem rate_limiter_window_bound_witness :
    countSpan 0 (runTry ⟨3, 1000, []⟩ [0, 100, 200, 300]).1 ≤ 3 ∧
    (SlidingWindowRateLimiter.tryRequest ⟨3, 1000, [0, 100, 200]⟩ 999).1 =
      decide (0 + 1000 ≤ 999) ∧
    (SlidingWindowRateLimiter.tryRequest ⟨3, 1000, [0, 100, 200]⟩ 1000).1 =
      decide (0 + 1000 ≤ 1000) :=
  ⟨(rate_limiter_window_bound [0, 100, 200, 300] (by decide)).1 0,
   (rate_limiter_window_bound [0, 100, 200, 300] (by decide)).2 0 100 200 999
     (by decide) (by decide) (by decide),
   (rate_limiter_window_bound [0, 100, 200, 300] (by decide)).2 0 100 200 1000
     (by decide) (by decide) (by decide)⟩

/-- Helper: the fuel-based digit expansion evaluates back to its input. -/
theorem natDigitsAux_ofDigits : ∀ fuel n, n ≤ fuel → ofDigitsLE (natDigitsAux fuel n) = n := by
  intro fuel
  induction fuel with
  | zero =>
    intro n hn
    interval_cases n
    rfl
  | succ fuel ih =>
    intro n hn
    match n with
    | 0 => rfl
    | m + 1 =>
      show ofDigitsLE ((m + 1) % 10 :: natDigitsAux fuel ((m + 1) / 10)) = m + 1
      rw [ofDigitsLE]
      rw [ih ((m + 1) / 10) (by omega)]
      omega

/-- Helper: every produced digit is below 10. -/
theorem natDigitsAux_lt10 : ∀ fuel n d, d ∈ natDigitsAux fuel n → d < 10 := by
  intro fuel
  induction fuel with
  | zero =>
    intro n d hd
    simp [natDigitsAux] at hd
  | succ fuel ih =>
    intro n d hd
    match n with
    | 0 => simp [natDigitsAux] at hd
    | m + 1 =>
      rw [show natDigitsAux (fuel + 1) (m + 1) =
        (m + 1) % 10 :: natDigitsAux fuel ((m + 1) / 10) from rfl] at hd
      rcases List.mem_cons.mp hd with h | h
      · omega
      · exact ih _ d h

/-- Helper: a number below `10 ^ k` has at most `k` digits. -/
theorem natDigitsAux_len : ∀ fuel n k, n ≤ fuel → n < 10 ^ k →
    (natDigitsAux fuel n).length ≤ k := by
  intro fuel
  induction fuel with
  | zero =>
    intro n k hn hk
    interval_cases n
    simp [natDigitsAux]
  | succ fuel ih =>
    intro n k hn hk
    match n with
    | 0 => simp [natDigitsAux]
    | m + 1 =>
      show ((m + 1) % 10 :: natDigitsAux fuel ((m + 1) / 10)).length ≤ k
      rw [List.length_cons]
      match k with
      | 0 =>
        exfalso
        simp at hk
      | j + 1 =>
        have h1 : (m + 1) / 10 < 10 ^ j := by
          rw [pow_succ] at hk
          omega
        have := ih ((m + 1) / 10) j (by omega) h1
        omega

/-- Helper: a positive number has at least one digit. -/
theorem natDigitsAux_ne_nil : ∀ fuel n, 1 ≤ n → n ≤ fuel → natDigitsAux fuel n ≠ [] := by
  intro fuel n h1 hn
  match fuel, n with
  | 0, n => omega
  | fuel + 1, 0 => omega
  | fuel + 1, m + 1 =>
    show (m + 1) % 10 :: natDigitsAux fuel ((m + 1) / 10) ≠ []
    simp

/-- Helper: reading back a digit character. -/
theorem charDigit_digitChar (d : ℕ) (hd : d < 10) : charDigit (Nat.digitChar d) = d := by
  interval_cases d <;> rfl

/-- Helper: digit characters are not the decimal point. -/
theorem digitChar_ne_dot (d : ℕ) (hd : d < 10) : Nat.digitChar d ≠ '.' := by
  interval_cases d <;> decide

/-- Helper: digit characters are not the minus sign. -/
theorem digitChar_ne_dash (d : ℕ) (hd : d < 10) : Nat.digitChar d ≠ '-' := by
  interval_cases d <;> decide

/-- Helper: the characters of a printed natural are plain digits. -/
theorem natChars_props (n : ℕ) : ∀ c ∈ natChars n, c ≠ '.' ∧ c ≠ '-' := by
  intro c hc
  rw [natChars] at hc
  split at hc
  · simp at hc
    subst hc
    exact ⟨by decide, by decide⟩
  · rw [List.mem_map] at hc
    obtain ⟨d, hd, hcd⟩ := hc
    rw [List.mem_reverse] at hd
    have h10 := natDigitsAux_lt10 n n d hd
    subst hcd
    exact ⟨digitChar_ne_dot d h10, digitChar_ne_dash d h10⟩

/-- Helper: parsing a printed natural returns it. -/
theorem parseNatChars_natChars (n : ℕ) : parseNatChars (natChars n) = n := by
  rw [natChars]
  split
  · rename_i h
    subst h
    rfl
  · rename_i h
    rw [parseNatChars, List.map_map]
    have hmap : (natDigits n).reverse.map (charDigit ∘ Nat.digitChar) =
        (natDigits n).reverse := by
      have hpt : ∀ d ∈ (natDigits n).reverse, (charDigit ∘ Nat.digitChar) d = id d := by
        intro d hd
        rw [List.mem_reverse] at hd
        exact charDigit_digitChar d (natDigitsAux_lt10 n n d hd)
      rw [List.map_congr_left hpt, List.map_id]
    rw [hmap, List.reverse_reverse]
    exact natDigitsAux_ofDigits n n le_rfl

/-- Helper: a natural below `10 ^ k` (with `k ≥ 1`) prints in at most `k`
characters. -/
theorem natChars_length_le (n k : ℕ) (hk : 1 ≤ k) (hn : n < 10 ^ k) :
    (natChars n).length ≤ k := by
  rw [natChars]
  split
  · simp
    omega
  · rw [List.length_map, List.length_reverse]
    exact natDigitsAux_len n n k le_rfl hn

/-- Helper: a printed natural is never the empty string. -/
theorem natChars_ne_nil (n : ℕ) : natChars n ≠ [] := by
  rw [natChars]
  split
  · simp
  · rename_i h
    simp only [ne_eq, List.map_eq_nil_iff, List.reverse_eq_nil_iff]
    exact natDigitsAux_ne_nil n n (by omega) le_rfl

/-- Helper: high-order zero digits do not change the value. -/
theorem ofDigitsLE_append_zeros (ds : List ℕ) (z : ℕ) :
    ofDigitsLE (ds ++ List.replicate z 0) = ofDigitsLE ds := by
  induction ds with
  | nil =>
    simp only [List.nil_append]
    induction z with
    | zero => rfl
    | succ z ih =>
      rw [List.replicate_succ]
      show 0 + 10 * ofDigitsLE (List.replicate z 0) = 0
      rw [ih]
      rfl
  | cons d ds ih =>
    rw [List.cons_append]
    show d + 10 * ofDigitsLE (ds ++ List.replicate z 0) = d + 10 * ofDigitsLE ds
    rw [ih]

/-- Helper: left zero padding does not change the parsed value. -/
theorem parseNatChars_pad (z : ℕ) (cs : List Char) :
    parseNatChars (List.replicate z '0' ++ cs) = parseNatChars cs := by
  rw [parseNatChars, parseNatChars, List.map_append, List.reverse_append]
  have hz : (List.replicate z '0').map charDigit = List.replicate z 0 := by
    rw [List.map_replicate]
    rfl
  rw [hz, List.reverse_replicate]
  exact ofDigitsLE_append_zeros _ z

/-- Helper: splitting a character list at its first stop character. -/
theorem takeWhile_append_stop (p : Char → Bool) :
    ∀ (l1 : List Char) (x : Char) (l2 : List Char),
      (∀ c ∈ l1, p c = true) → p x = false →
      ((l1 ++ x :: l2).takeWhile p = l1 ∧ (l1 ++ x :: l2).dropWhile p = x :: l2) := by
  intro l1
  induction l1 with
  | nil =>
    intro x l2 h1 hx
    constructor
    · rw [List.nil_append, List.takeWhile_cons, hx]
      simp
    · rw [List.nil_append, List.dropWhile_cons, hx]
      simp
  | cons c l1 ih =>
    intro x l2 h1 hx
    have hc : p c = true := h1 c (List.mem_cons_self c l1)
    have hrest := ih x l2 (fun a ha => h1 a (List.mem_cons_of_mem c ha)) hx
    constructor
    · rw [List.cons_append, List.takeWhile_cons, hc]
      simp only [if_true]
      rw [hrest.1]
    · rw [List.cons_append, List.dropWhile_cons, hc]
      simp only [if_true]
      exact hrest.2

/-- Helper: a list whose characters all satisfy the predicate is untouched by
`takeWhile`/`dropWhile`. -/
theorem takeWhile_all (p : Char → Bool) :
    ∀ (l : List Char), (∀ c ∈ l, p c = true) →
      (l.takeWhile p = l ∧ l.dropWhile p = []) := by
  intro l
  induction l with
  | nil =>
    intro h
    exact ⟨rfl, rfl⟩
  | cons c l ih =>
    intro h
    have hc : p c = true := h c (List.mem_cons_self c l)
    have hrest := ih (fun a ha => h a (List.mem_cons_of_mem c ha))
    constructor
    · rw [List.takeWhile_cons, hc]
      simp only [if_true]
      rw [hrest.1]
    · rw [List.dropWhile_cons, hc]
      simp only [if_true]
      exact hrest.2

/-- Helper: a decimal string with no point parses as its integer value. -/
theorem parseDecChars_digits (cs : List Char) (h : ∀ c ∈ cs, c ≠ '.') :
    parseDecChars cs = (parseNatChars cs : ℚ) := by
  rw [parseDecChars]
  have hall : ∀ c ∈ cs, (fun c => decide (c ≠ '.')) c = true := by
    intro c hc
    simpa using h c hc
  rw [(takeWhile_all _ cs hall).1, (takeWhile_all _ cs hall).2]
  simp only [List.drop_nil, List.length_nil, pow_zero]
  rw [qAdd_eq]
  have h0 : parseNatChars [] = 0 := rfl
  rw [h0]
  rw [Rat.divInt_eq_div, Rat.divInt_eq_div]
  norm_num

/-- Helper: parsing `intpart.fracpart`. -/
theorem parseDecChars_split (ip fp : List Char)
    (hip : ∀ c ∈ ip, c ≠ '.') :
    parseDecChars (ip ++ '.' :: fp) =
      (parseNatChars ip : ℚ) + (parseNatChars fp : ℚ) / (10 : ℚ) ^ fp.length := by
  rw [parseDecChars]
  have hallip : ∀ c ∈ ip, (fun c => decide (c ≠ '.')) c = true := by
    intro c hc
    simpa using hip c hc
  have hdot : (fun c => decide (c ≠ '.')) '.' = false := by simp
  rw [(takeWhile_append_stop _ ip '.' fp hallip hdot).1,
    (takeWhile_append_stop _ ip '.' fp hallip hdot).2]
  simp only [List.drop_succ_cons, List.drop_zero]
  rw [qAdd_eq, Rat.divInt_eq_div, Rat.divInt_eq_div]
  push_cast
  ring

/-- Helper: an unsigned rendering parses through `parseDecChars`. -/
theorem parseDec_asString_pos (cs : List Char) (h : cs.head? ≠ some '-') :
    parseDec cs.asString = parseDecChars cs := by
  have ht : (cs.asString).toList = cs := rfl
  unfold parseDec
  rw [ht]
  split
  · rename_i tl
    simp at h
  · rfl

/-- Helper: a leading minus sign negates the parsed value. -/
theorem parseDec_asString_neg (cs : List Char) :
    parseDec (('-' :: cs).asString) = -(parseDecChars cs) := by
  have ht : (('-' :: cs).asString).toList = '-' :: cs := rfl
  unfold parseDec
  rw [ht]
  rfl

/-- Helper: stripping only shrinks the fractional width. -/
theorem stripZeros_snd_le (k : ℤ) (d : ℕ) : (stripZeros k d).2 ≤ d := by
  induction d generalizing k with
  | zero => exact le_rfl
  | succ d ih =>
    have hdef : stripZeros k (d + 1) =
        if k % 10 = 0 then stripZeros (k / 10) d else (k, d + 1) := rfl
    rw [hdef]
    by_cases h : k % 10 = 0
    · rw [if_pos h]
      exact le_trans (ih (k / 10)) (Nat.le_succ d)
    · rw [if_neg h]

/-- Helper: stripping preserves the value `k / 10 ^ d`. -/
theorem stripZeros_val (k : ℤ) (d : ℕ) :
    ((stripZeros k d).1 : ℚ) * (10 : ℚ) ^ (-((stripZeros k d).2 : ℤ)) =
      (k : ℚ) * (10 : ℚ) ^ (-(d : ℤ)) := by
  induction d generalizing k with
  | zero => rfl
  | succ d ih =>
    have hdef : stripZeros k (d + 1) =
        if k % 10 = 0 then stripZeros (k / 10) d else (k, d + 1) := rfl
    rw [hdef]
    by_cases h : k % 10 = 0
    · rw [if_pos h]
      rw [ih (k / 10)]
      obtain ⟨j, hj⟩ : (10 : ℤ) ∣ k := Int.dvd_of_emod_eq_zero h
      subst hj
      rw [Int.mul_ediv_cancel_left j (by norm_num)]
      push_cast
      rw [mul_comm (10 : ℚ) (j : ℚ), mul_assoc]
      congr 1
      have hexp : -((d : ℤ) + 1) + 1 = -(d : ℤ) := by ring
      rw [← hexp, zpow_add_one₀ (by norm_num : (10 : ℚ) ≠ 0)]
      ring
    · rw [if_neg h]

/-- Helper: recombining Euclidean division by `10 ^ d` over `ℚ`. -/
theorem natCast_div_add_mod_q (n : ℕ) (d : ℕ) :
    ((n / 10 ^ d : ℕ) : ℚ) + ((n % 10 ^ d : ℕ) : ℚ) / (10 : ℚ) ^ d =
      (n : ℚ) * (10 : ℚ) ^ (-(d : ℤ)) := by
  have h10 : ((10 : ℚ)) ^ d ≠ 0 := pow_ne_zero _ (by norm_num)
  rw [zpow_neg, zpow_natCast]
  rw [eq_comm, mul_inv_eq_iff_eq_mul₀ h10, add_mul, div_mul_cancel₀ _ h10]
  have hmod := Nat.div_add_mod n (10 ^ d)
  calc (n : ℚ) = ((10 ^ d * (n / 10 ^ d) + n % 10 ^ d : ℕ) : ℚ) := by rw [hmod]
    _ = ((n / 10 ^ d : ℕ) : ℚ) * (10 : ℚ) ^ d + ((n % 10 ^ d : ℕ) : ℚ) := by push_cast; ring

/-- Helper: `parseFloat` recovers the exact value of an unstripped decimal
rendering of `k / 10 ^ d`. -/
theorem parseDec_renderParts (k : ℤ) (d : ℕ) :
    parseDec (renderParts k d) = (k : ℚ) * (10 : ℚ) ^ (-(d : ℤ)) := by
  by_cases hd : d = 0
  · subst hd
    by_cases hk : k < 0
    · have hdef : renderParts k 0 = (('-' :: natChars k.natAbs)).asString := by
        simp only [renderParts, if_pos hk, if_pos rfl]
        rfl
      rw [hdef, parseDec_asString_neg]
      rw [parseDecChars_digits _ (fun c hc => (natChars_props _ c hc).1)]
      rw [parseNatChars_natChars]
      have : ((k.natAbs : ℕ) : ℚ) = -(k : ℚ) := by
        have h2 : (k.natAbs : ℤ) = -k := by
          rw [← Int.natAbs_neg]
          exact Int.natAbs_of_nonneg (by omega)
        calc ((k.natAbs : ℕ) : ℚ) = (((k.natAbs : ℤ)) : ℚ) := (Int.cast_natCast _).symm
          _ = ((-k : ℤ) : ℚ) := by rw [h2]
          _ = -(k : ℚ) := Int.cast_neg k
      rw [this]
      simp
    · have hdef : renderParts k 0 = (natChars k.natAbs).asString := by
        simp only [renderParts, if_neg hk, if_pos rfl]
        rfl
      rw [hdef]
      rw [parseDec_asString_pos _ ?hh]
      case hh =>
        cases hnc : natChars k.natAbs with
        | nil => exact absurd hnc (natChars_ne_nil _)
        | cons c tl =>
          simp only [List.head?_cons, ne_eq, Option.some_inj]
          exact (natChars_props _ c (hnc ▸ List.mem_cons_self c tl)).2
      rw [parseDecChars_digits _ (fun c hc => (natChars_props _ c hc).1)]
      rw [parseNatChars_natChars]
      have : ((k.natAbs : ℕ) : ℚ) = (k : ℚ) := by
        have h2 : (k.natAbs : ℤ) = k := Int.natAbs_of_nonneg (not_lt.mp hk)
        calc ((k.natAbs : ℕ) : ℚ) = (((k.natAbs : ℤ)) : ℚ) := (Int.cast_natCast _).symm
          _ = (k : ℚ) := by rw [h2]
      rw [this]
      simp
  · -- fractional branch
    have hfpraw : (natChars (k.natAbs % 10 ^ d)).length ≤ d :=
      natChars_length_le _ d (by omega) (Nat.mod_lt _ (by positivity))
    have hfplen :
        (List.replicate (d - (natChars (k.natAbs % 10 ^ d)).length) '0' ++
          natChars (k.natAbs % 10 ^ d)).length = d := by
      rw [List.length_append, List.length_replicate]
      omega
    have hipdot : ∀ c ∈ natChars (k.natAbs / 10 ^ d), c ≠ '.' :=
      fun c hc => (natChars_props _ c hc).1
    have hcore :
        parseDecChars (natChars (k.natAbs / 10 ^ d) ++ '.' ::
            (List.replicate (d - (natChars (k.natAbs % 10 ^ d)).length) '0' ++
              natChars (k.natAbs % 10 ^ d))) =
          ((k.natAbs : ℕ) : ℚ) * (10 : ℚ) ^ (-(d : ℤ)) := by
      rw [parseDecChars_split _ _ hipdot]
      rw [hfplen, parseNatChars_pad, parseNatChars_natChars, parseNatChars_natChars]
      exact natCast_div_add_mod_q k.natAbs d
    by_cases hk : k < 0
    · have hdef : renderParts k d =
          ('-' :: (natChars (k.natAbs / 10 ^ d) ++ '.' ::
            (List.replicate (d - (natChars (k.natAbs % 10 ^ d)).length) '0' ++
              natChars (k.natAbs % 10 ^ d)))).asString := by
        simp only [renderParts, if_pos hk, if_neg hd]
        rfl
      rw [hdef, parseDec_asString_neg, hcore]
      have : ((k.natAbs : ℕ) : ℚ) = -(k : ℚ) := by
        have h2 : (k.natAbs : ℤ) = -k := by
          rw [← Int.natAbs_neg]
          exact Int.natAbs_of_nonneg (by omega)
        calc ((k.natAbs : ℕ) : ℚ) = (((k.natAbs : ℤ)) : ℚ) := (Int.cast_natCast _).symm
          _ = ((-k : ℤ) : ℚ) := by rw [h2]
          _ = -(k : ℚ) := Int.cast_neg k
      rw [this]
      ring
    · have hdef : renderParts k d =
          (natChars (k.natAbs / 10 ^ d) ++ '.' ::
            (List.replicate (d - (natChars (k.natAbs % 10 ^ d)).length) '0' ++
              natChars (k.natAbs % 10 ^ d))).asString := by
        simp only [renderParts, if_neg hk, if_neg hd]
        rfl
      rw [hdef]
      rw [parseDec_asString_pos _ ?hh2]
      case hh2 =>
        cases hnc : natChars (k.natAbs / 10 ^ d) with
        | nil => exact absurd hnc (natChars_ne_nil _)
        | cons c tl =>
          simp only [List.cons_append, List.head?_cons, ne_eq, Option.some_inj]
          exact (natChars_props _ c (hnc ▸ List.mem_cons_self c tl)).2
      rw [hcore]
      have : ((k.natAbs : ℕ) : ℚ) = (k : ℚ) := by
        have h2 : (k.natAbs : ℤ) = k := Int.natAbs_of_nonneg (not_lt.mp hk)
        calc ((k.natAbs : ℕ) : ℚ) = (((k.natAbs : ℤ)) : ℚ) := (Int.cast_natCast _).symm
          _ = (k : ℚ) := by rw [h2]
      rw [this]

/-- Helper (round trip): `parseFloat` recovers the exact value of the decimal
string this code prints for `k / 10 ^ d`. -/
theorem parseDec_renderDec (k : ℤ) (d : ℕ) :
    parseDec (renderDec k d) = (k : ℚ) * (10 : ℚ) ^ (-(d : ℤ)) := by
  rw [renderDec, parseDec_renderParts]
  exact stripZeros_val k d

/-- Helper: integers are fixed points of the half-up rounding. -/
theorem roundHalfUp_intCast (k : ℤ) : roundHalfUp (k : ℚ) = k := by
  rw [roundHalfUp_eq, Int.floor_int_add]
  norm_num

/-- Helper: scaling `k / 10 ^ d` back up by `10 ^ d` yields `k`. -/
theorem mulPow10_cancel (k : ℤ) (d : ℕ) :
    mulPow10 ((k : ℚ) * (10 : ℚ) ^ (-(d : ℤ))) (d : ℤ) = (k : ℚ) := by
  rw [mulPow10_eq, mul_assoc, ← zpow_add₀ (by norm_num : (10 : ℚ) ≠ 0)]
  norm_num

/-- C7: for every size and every `szDecimals ≥ 0` (a natural in the model),
the numeric value of `roundSize(size, d)` is an integer multiple of
`10 ^ -d` — exactly, since the model computes the ECMAScript decimal
roundings without floating-point error — and `roundSize` is idempotent:
applied to the numeric value of its own output with the same `szDecimals`
it returns the same string. -/
theorem roundSize_multiple_and_idempotent (size : ℚ) (szDecimals : ℕ) :
    (∃ m : ℤ, parseDec (roundSize size szDecimals) =
      (m : ℚ) * (10 : ℚ) ^ (-(szDecimals : ℤ))) ∧
    roundSize (parseDec (roundSize size szDecimals)) szDecimals =
      roundSize size szDecimals := by
  have hk : parseDec (roundSize size szDecimals) =
      ((roundHalfUp (mulPow10 size (szDecimals : ℤ)) : ℤ) : ℚ) *
        (10 : ℚ) ^ (-(szDecimals : ℤ)) := by
    rw [roundSize, parseDec_renderDec]
  refine ⟨⟨roundHalfUp (mulPow10 size (szDecimals : ℤ)), hk⟩, ?_⟩
  rw [hk]
  simp only [roundSize]
  rw [mulPow10_cancel, roundHalfUp_intCast]

/-- Helper: the fuel-based logarithm brackets its input between consecutive
powers of ten. -/
theorem natLogAux_spec : ∀ fuel n, 1 ≤ n → n ≤ fuel →
    10 ^ natLogAux fuel n ≤ n ∧ n < 10 ^ (natLogAux fuel n + 1) := by
  intro fuel
  induction fuel with
  | zero =>
    intro n h1 hn
    omega
  | succ fuel ih =>
    intro n h1 hn
    show 10 ^ (if n < 10 then 0 else natLogAux fuel (n / 10) + 1) ≤ n ∧
      n < 10 ^ ((if n < 10 then 0 else natLogAux fuel (n / 10) + 1) + 1)
    by_cases hlt : n < 10
    · rw [if_pos hlt]
      constructor
      · simpa using h1
      · simpa using hlt
    · rw [if_neg hlt]
      have hd1 : 1 ≤ n / 10 := by omega
      have hdf : n / 10 ≤ fuel := by omega
      obtain ⟨hlo, hhi⟩ := ih (n / 10) hd1 hdf
      constructor
      · calc 10 ^ (natLogAux fuel (n / 10) + 1) = 10 ^ natLogAux fuel (n / 10) * 10 := by ring
          _ ≤ n / 10 * 10 := by omega
          _ ≤ n := by omega
      · calc n < (n / 10 + 1) * 10 := by omega
          _ ≤ 10 ^ (natLogAux fuel (n / 10) + 1) * 10 := by
              have : n / 10 + 1 ≤ 10 ^ (natLogAux fuel (n / 10) + 1) := by omega
              exact Nat.mul_le_mul_right 10 this
          _ = 10 ^ (natLogAux fuel (n / 10) + 1 + 1) := by ring

/-- Helper: `natLog10` specification for positive naturals. -/
theorem natLog10_spec (n : ℕ) (h1 : 1 ≤ n) :
    10 ^ natLog10 n ≤ n ∧ n < 10 ^ (natLog10 n + 1) :=
  natLogAux_spec n n h1 le_rfl

/-- Helper: upper bound of the half-up rounding. -/
theorem roundHalfUp_le (q : ℚ) : (roundHalfUp q : ℚ) ≤ q + 1 / 2 := by
  rw [roundHalfUp_eq]
  exact Int.floor_le (q + 1 / 2)

/-- Helper: lower bound of the half-up rounding. -/
theorem lt_roundHalfUp (q : ℚ) : q - 1 / 2 < (roundHalfUp q : ℚ) := by
  rw [roundHalfUp_eq]
  have := Int.lt_floor_add_one (q + 1 / 2)
  linarith

/-- Helper: monotonicity of the half-up rounding. -/
theorem roundHalfUp_mono (a b : ℚ) (h : a ≤ b) : roundHalfUp a ≤ roundHalfUp b := by
  rw [roundHalfUp_eq, roundHalfUp_eq]
  exact Int.floor_mono (by linarith)

/-- Helper: `decExp` brackets a positive rational between consecutive powers
of ten. -/
theorem decExp_spec (q : ℚ) (hq : 0 < q) :
    (10 : ℚ) ^ decExp q ≤ q ∧ q < (10 : ℚ) ^ (decExp q + 1) := by
  have hnum : 0 < q.num := Rat.num_pos.mpr hq
  have ha1 : 1 ≤ q.num.natAbs := by
    have := Int.natAbs_pos.mpr (ne_of_gt hnum)
    omega
  have hb1 : 1 ≤ q.den := q.pos
  obtain ⟨hla, hha⟩ := natLog10_spec q.num.natAbs ha1
  obtain ⟨hlb, hhb⟩ := natLog10_spec q.den hb1
  have hA : q * (q.den : ℚ) = ((q.num.natAbs : ℕ) : ℚ) := by
    rw [Rat.mul_den_eq_num]
    have h2 : (q.num.natAbs : ℤ) = q.num := Int.natAbs_of_nonneg (le_of_lt hnum)
    calc (q.num : ℚ) = (((q.num.natAbs : ℤ)) : ℚ) := by rw [h2]
      _ = ((q.num.natAbs : ℕ) : ℚ) := Int.cast_natCast _
  have h10 : (0 : ℚ) < 10 := by norm_num
  have hupper : q < (10 : ℚ) ^ ((natLog10 q.num.natAbs : ℤ) - (natLog10 q.den : ℤ) + 1) := by
    have step1 : q * (10 : ℚ) ^ ((natLog10 q.den : ℤ)) ≤ q * (q.den : ℚ) := by
      apply mul_le_mul_of_nonneg_left _ (le_of_lt hq)
      rw [zpow_natCast]
      exact_mod_cast hlb
    have step2 : ((q.num.natAbs : ℕ) : ℚ) < (10 : ℚ) ^ ((natLog10 q.num.natAbs : ℤ) + 1) := by
      rw [show (natLog10 q.num.natAbs : ℤ) + 1 = ((natLog10 q.num.natAbs + 1 : ℕ) : ℤ) from by
        push_cast
        ring]
      rw [zpow_natCast]
      exact_mod_cast hha
    have step3 : q * (10 : ℚ) ^ ((natLog10 q.den : ℤ)) <
        (10 : ℚ) ^ ((natLog10 q.num.natAbs : ℤ) + 1) := by
      calc q * (10 : ℚ) ^ ((natLog10 q.den : ℤ)) ≤ q * (q.den : ℚ) := step1
        _ = ((q.num.natAbs : ℕ) : ℚ) := hA
        _ < (10 : ℚ) ^ ((natLog10 q.num.natAbs : ℤ) + 1) := step2
    have hzpos : (0 : ℚ) < (10 : ℚ) ^ ((natLog10 q.den : ℤ)) := zpow_pos h10 _
    rw [show (natLog10 q.num.natAbs : ℤ) - (natLog10 q.den : ℤ) + 1 =
      ((natLog10 q.num.natAbs : ℤ) + 1) + (-(natLog10 q.den : ℤ)) from by ring]
    rw [zpow_add₀ (ne_of_gt h10), zpow_neg, ← div_eq_mul_inv, lt_div_iff₀ hzpos]
    exact step3
  have hlower : (10 : ℚ) ^ ((natLog10 q.num.natAbs : ℤ) - (natLog10 q.den : ℤ) - 1) < q := by
    have step1 : (10 : ℚ) ^ ((natLog10 q.num.natAbs : ℤ)) ≤ q * (q.den : ℚ) := by
      rw [hA, zpow_natCast]
      exact_mod_cast hla
    have step2 : q * (q.den : ℚ) < q * (10 : ℚ) ^ ((natLog10 q.den : ℤ) + 1) := by
      apply mul_lt_mul_of_pos_left _ hq
      rw [show (natLog10 q.den : ℤ) + 1 = ((natLog10 q.den + 1 : ℕ) : ℤ) from by
        push_cast
        ring]
      rw [zpow_natCast]
      exact_mod_cast hhb
    have step3 : (10 : ℚ) ^ ((natLog10 q.num.natAbs : ℤ)) <
        q * (10 : ℚ) ^ ((natLog10 q.den : ℤ) + 1) := lt_of_le_of_lt step1 step2
    have hzpos : (0 : ℚ) < (10 : ℚ) ^ ((natLog10 q.den : ℤ) + 1) := zpow_pos h10 _
    rw [show (natLog10 q.num.natAbs : ℤ) - (natLog10 q.den : ℤ) - 1 =
      (natLog10 q.num.natAbs : ℤ) + (-((natLog10 q.den : ℤ) + 1)) from by ring]
    rw [zpow_add₀ (ne_of_gt h10), zpow_neg, ← div_eq_mul_inv, div_lt_iff₀ hzpos]
    exact step3
  by_cases hcase : qpow10 ((natLog10 q.num.natAbs : ℤ) - (natLog10 q.den : ℤ)) ≤ q
  · have hde : decExp q = (natLog10 q.num.natAbs : ℤ) - (natLog10 q.den : ℤ) := by
      simp only [decExp]
      rw [if_pos hcase]
    rw [hde]
    rw [qpow10_eq] at hcase
    exact ⟨hcase, hupper⟩
  · have hde : decExp q = (natLog10 q.num.natAbs : ℤ) - (natLog10 q.den : ℤ) - 1 := by
      simp only [decExp]
      rw [if_neg hcase]
    rw [hde]
    rw [qpow10_eq] at hcase
    push_neg at hcase
    refine ⟨le_of_lt hlower, ?_⟩
    rw [show (natLog10 q.num.natAbs : ℤ) - (natLog10 q.den : ℤ) - 1 + 1 =
      (natLog10 q.num.natAbs : ℤ) - (natLog10 q.den : ℤ) from by ring]
    exact hcase

/-- Helper: the decimal exponent is unique. -/
theorem decExp_unique (q : ℚ) (hq : 0 < q) (e : ℤ)
    (hlo : (10 : ℚ) ^ e ≤ q) (hhi : q < (10 : ℚ) ^ (e + 1)) : decExp q = e := by
  obtain ⟨hlo2, hhi2⟩ := decExp_spec q hq
  have h1 : (10 : ℚ) ^ e < (10 : ℚ) ^ (decExp q + 1) := lt_of_le_of_lt hlo hhi2
  have h2 : (10 : ℚ) ^ decExp q < (10 : ℚ) ^ (e + 1) := lt_of_le_of_lt hlo2 hhi
  have h110 : (1 : ℚ) < 10 := by norm_num
  rw [zpow_lt_zpow_iff_right₀ h110] at h1 h2
  omega

/-- Helper: `sig5pos` written with ordinary field operations. -/
theorem sig5pos_eq (x : ℚ) :
    sig5pos x = ((roundHalfUp (x * (10 : ℚ) ^ (4 - decExp x)) : ℤ) : ℚ) *
      (10 : ℚ) ^ (decExp x - 4) := by
  rw [sig5pos, mulPow10_eq, mulPow10_eq]

/-- Helper: casting an integer power of ten into `ℚ`. -/
theorem cast_int_pow_q (n : ℕ) : (((10 : ℤ) ^ n : ℤ) : ℚ) = (10 : ℚ) ^ (n : ℤ) := by
  rw [zpow_natCast]
  push_cast
  ring

/-- Helper: the 5-digit mantissa selected by `toPrecision(5)` lies in
`[10^4, 10^5]` for positive input. -/
theorem sig5pos_m_bounds (x : ℚ) (hx : 0 < x) :
    10 ^ 4 ≤ roundHalfUp (x * (10 : ℚ) ^ (4 - decExp x)) ∧
    roundHalfUp (x * (10 : ℚ) ^ (4 - decExp x)) ≤ 10 ^ 5 := by
  obtain ⟨hlo, hhi⟩ := decExp_spec x hx
  have h10 : (10 : ℚ) ≠ 0 := by norm_num
  have hzpos : (0 : ℚ) < (10 : ℚ) ^ ((4 : ℤ) - decExp x) := zpow_pos (by norm_num) _
  have harg_lo : (10 : ℚ) ^ (4 : ℤ) ≤ x * (10 : ℚ) ^ (4 - decExp x) := by
    calc (10 : ℚ) ^ (4 : ℤ) = (10 : ℚ) ^ decExp x * (10 : ℚ) ^ (4 - decExp x) := by
          rw [← zpow_add₀ h10]
          congr 1
          ring
      _ ≤ x * (10 : ℚ) ^ (4 - decExp x) := mul_le_mul_of_nonneg_right hlo (le_of_lt hzpos)
  have harg_hi : x * (10 : ℚ) ^ (4 - decExp x) < (10 : ℚ) ^ (5 : ℤ) := by
    calc x * (10 : ℚ) ^ (4 - decExp x) <
        (10 : ℚ) ^ (decExp x + 1) * (10 : ℚ) ^ (4 - decExp x) :=
          mul_lt_mul_of_pos_right hhi hzpos
      _ = (10 : ℚ) ^ (5 : ℤ) := by
          rw [← zpow_add₀ h10]
          congr 1
          ring
  have hc4 : (((10 : ℤ) ^ 4 : ℤ) : ℚ) = (10 : ℚ) ^ (4 : ℤ) := by
    rw [cast_int_pow_q 4]
    norm_num
  have hc5 : (((10 : ℤ) ^ 5 : ℤ) : ℚ) = (10 : ℚ) ^ (5 : ℤ) := by
    rw [cast_int_pow_q 5]
    norm_num
  constructor
  · have hmono := roundHalfUp_mono (((10 : ℤ) ^ 4 : ℤ) : ℚ) (x * (10 : ℚ) ^ (4 - decExp x))
      (by rw [hc4]; exact harg_lo)
    rwa [roundHalfUp_intCast] at hmono
  · have hle := roundHalfUp_le (x * (10 : ℚ) ^ (4 - decExp x))
    have h5 : (10 : ℚ) ^ (5 : ℤ) = 100000 := by norm_num
    have hq : ((roundHalfUp (x * (10 : ℚ) ^ (4 - decExp x)) : ℤ) : ℚ) < (100001 : ℚ) := by
      calc ((roundHalfUp (x * (10 : ℚ) ^ (4 - decExp x)) : ℤ) : ℚ) ≤
          x * (10 : ℚ) ^ (4 - decExp x) + 1 / 2 := hle
        _ < (10 : ℚ) ^ (5 : ℤ) + 1 / 2 := by linarith
        _ < 100001 := by
            rw [h5]
            norm_num
    have hint : roundHalfUp (x * (10 : ℚ) ^ (4 - decExp x)) < 100001 := by
      exact_mod_cast hq
    have h5z : (10 : ℤ) ^ 5 = 100000 := by norm_num
    omega

/-- Helper: the output of `sig5` is an integer mantissa of magnitude at most
`10^5` times a power of ten. -/
theorem sig5_form (x : ℚ) :
    ∃ M e4 : ℤ, M.natAbs ≤ 10 ^ 5 ∧ sig5 x = (M : ℚ) * (10 : ℚ) ^ e4 := by
  have h5z : (10 : ℤ) ^ 5 = 100000 := by norm_num
  have h4z : (10 : ℤ) ^ 4 = 10000 := by norm_num
  by_cases h0 : x = 0
  · exact ⟨0, 0, by simp, by simp [sig5, h0]⟩
  by_cases hpos : 0 < x
  · obtain ⟨h1, h2⟩ := sig5pos_m_bounds x hpos
    refine ⟨roundHalfUp (x * (10 : ℚ) ^ (4 - decExp x)), decExp x - 4, by omega, ?_⟩
    rw [sig5, if_neg h0, if_pos hpos, sig5pos_eq]
  · have hneg : 0 < -x := by
      rcases lt_trichotomy x 0 with h | h | h
      · linarith
      · exact absurd h h0
      · exact absurd h hpos
    obtain ⟨h1, h2⟩ := sig5pos_m_bounds (-x) hneg
    refine ⟨-(roundHalfUp (-x * (10 : ℚ) ^ (4 - decExp (-x)))), decExp (-x) - 4, by omega, ?_⟩
    rw [sig5, if_neg h0, if_neg hpos, sig5pos_eq]
    push_cast
    ring

/-- Helper: a positive value with at most 5 significant decimal digits is a
fixed point of `sig5pos`. -/
theorem sig5pos_fixed (n : ℕ) (t : ℤ) (h1 : 1 ≤ n) (h5 : n < 10 ^ 5) :
    sig5pos ((n : ℚ) * (10 : ℚ) ^ t) = (n : ℚ) * (10 : ℚ) ^ t := by
  have h10 : (10 : ℚ) ≠ 0 := by norm_num
  have hlog : natLog10 n ≤ 4 := by
    obtain ⟨hlo, _⟩ := natLog10_spec n h1
    by_contra hcon
    have h5' : 5 ≤ natLog10 n := by omega
    have hp : (10 : ℕ) ^ 5 ≤ 10 ^ natLog10 n := Nat.pow_le_pow_right (by norm_num) h5'
    omega
  have hnpos : (0 : ℚ) < (n : ℚ) := by exact_mod_cast Nat.lt_of_lt_of_le Nat.zero_lt_one h1
  have hxpos : 0 < (n : ℚ) * (10 : ℚ) ^ t := mul_pos hnpos (zpow_pos (by norm_num) t)
  obtain ⟨hlo, hhi⟩ := natLog10_spec n h1
  have he : decExp ((n : ℚ) * (10 : ℚ) ^ t) = t + (natLog10 n : ℤ) := by
    apply decExp_unique _ hxpos
    · calc (10 : ℚ) ^ (t + (natLog10 n : ℤ)) =
          (10 : ℚ) ^ ((natLog10 n : ℤ)) * (10 : ℚ) ^ t := by
            rw [← zpow_add₀ h10]
            congr 1
            ring
        _ ≤ (n : ℚ) * (10 : ℚ) ^ t := by
            apply mul_le_mul_of_nonneg_right _ (le_of_lt (zpow_pos (by norm_num) t))
            rw [zpow_natCast]
            exact_mod_cast hlo
    · calc (n : ℚ) * (10 : ℚ) ^ t <
          (10 : ℚ) ^ ((natLog10 n : ℤ) + 1) * (10 : ℚ) ^ t := by
            apply mul_lt_mul_of_pos_right _ (zpow_pos (by norm_num) t)
            rw [show (natLog10 n : ℤ) + 1 = ((natLog10 n + 1 : ℕ) : ℤ) from by push_cast; ring,
              zpow_natCast]
            exact_mod_cast hhi
        _ = (10 : ℚ) ^ (t + (natLog10 n : ℤ) + 1) := by
            rw [← zpow_add₀ h10]
            congr 1
            ring
  have hcastsub : (((4 - natLog10 n : ℕ)) : ℤ) = 4 - (natLog10 n : ℤ) := by
    push_cast [hlog]
    ring
  have harg : (n : ℚ) * (10 : ℚ) ^ t *
      (10 : ℚ) ^ (4 - decExp ((n : ℚ) * (10 : ℚ) ^ t)) =
      ((n * 10 ^ (4 - natLog10 n) : ℕ) : ℚ) := by
    rw [he]
    calc (n : ℚ) * (10 : ℚ) ^ t * (10 : ℚ) ^ (4 - (t + (natLog10 n : ℤ))) =
        (n : ℚ) * ((10 : ℚ) ^ t * (10 : ℚ) ^ (4 - (t + (natLog10 n : ℤ)))) := by ring
      _ = (n : ℚ) * (10 : ℚ) ^ (((4 - natLog10 n : ℕ)) : ℤ) := by
          rw [← zpow_add₀ h10, hcastsub]
          congr 2
          ring
      _ = (n : ℚ) * (10 : ℚ) ^ ((4 - natLog10 n : ℕ)) := by rw [zpow_natCast]
      _ = ((n * 10 ^ (4 - natLog10 n) : ℕ) : ℚ) := by push_cast; ring
  rw [sig5pos_eq, harg]
  have hNc : ((n * 10 ^ (4 - natLog10 n) : ℕ) : ℚ) =
      (((n * 10 ^ (4 - natLog10 n) : ℕ) : ℤ) : ℚ) := (Int.cast_natCast _).symm
  rw [hNc, roundHalfUp_intCast, ← hNc]
  rw [he]
  calc ((n * 10 ^ (4 - natLog10 n) : ℕ) : ℚ) * (10 : ℚ) ^ (t + (natLog10 n : ℤ) - 4) =
      (n : ℚ) * ((10 : ℚ) ^ (((4 - natLog10 n : ℕ)) : ℤ) *
        (10 : ℚ) ^ (t + (natLog10 n : ℤ) - 4)) := by
        rw [zpow_natCast]
        push_cast
        ring
    _ = (n : ℚ) * (10 : ℚ) ^ t := by
        rw [← zpow_add₀ h10, hcastsub]
        congr 2
        ring

/-- Helper: a value `j * 10 ^ t` with `|j| < 10^5` is a fixed point of
`sig5`. -/
theorem sig5_fixed_small (j t : ℤ) (hj : j.natAbs < 10 ^ 5) :
    sig5 ((j : ℚ) * (10 : ℚ) ^ t) = (j : ℚ) * (10 : ℚ) ^ t := by
  rcases lt_trichotomy j 0 with hneg | hzero | hpos
  · have hxneg : (j : ℚ) * (10 : ℚ) ^ t < 0 :=
      mul_neg_of_neg_of_pos (by exact_mod_cast hneg) (zpow_pos (by norm_num) t)
    rw [sig5, if_neg (ne_of_lt hxneg), if_neg (not_lt.mpr (le_of_lt hxneg))]
    have h2 : (j.natAbs : ℤ) = -j := by
      rw [← Int.natAbs_neg]
      exact Int.natAbs_of_nonneg (by omega)
    have hxabs : -((j : ℚ) * (10 : ℚ) ^ t) = ((j.natAbs : ℕ) : ℚ) * (10 : ℚ) ^ t := by
      calc -((j : ℚ) * (10 : ℚ) ^ t) = ((-j : ℤ) : ℚ) * (10 : ℚ) ^ t := by push_cast; ring
        _ = (((j.natAbs : ℤ)) : ℚ) * (10 : ℚ) ^ t := by rw [h2]
        _ = ((j.natAbs : ℕ) : ℚ) * (10 : ℚ) ^ t := by rw [Int.cast_natCast]
    rw [hxabs, sig5pos_fixed j.natAbs t (by omega) hj, ← hxabs]
    ring
  · subst hzero
    simp [sig5]
  · have hxpos : 0 < (j : ℚ) * (10 : ℚ) ^ t :=
      mul_pos (by exact_mod_cast hpos) (zpow_pos (by norm_num) t)
    rw [sig5, if_neg (ne_of_gt hxpos), if_pos hxpos]
    have h2 : (j.natAbs : ℤ) = j := Int.natAbs_of_nonneg (by omega)
    have hxabs : (j : ℚ) * (10 : ℚ) ^ t = ((j.natAbs : ℕ) : ℚ) * (10 : ℚ) ^ t := by
      calc (j : ℚ) * (10 : ℚ) ^ t = (((j.natAbs : ℤ)) : ℚ) * (10 : ℚ) ^ t := by rw [h2]
        _ = ((j.natAbs : ℕ) : ℚ) * (10 : ℚ) ^ t := by rw [Int.cast_natCast]
    rw [hxabs, sig5pos_fixed j.natAbs t (by omega) hj, ← hxabs]

/-- Helper: rounding a bounded mantissa times a power of ten at any decimal
position, then viewing the result at scale `10 ^ -dA`, again yields an
integer mantissa of magnitude below `10^5` times a power of ten. -/
theorem roundHalfUp_scaled_form (M : ℤ) (hM : M.natAbs ≤ 10 ^ 5) (c : ℤ) (dA : ℕ) :
    ∃ j t : ℤ, j.natAbs < 10 ^ 5 ∧
      ((roundHalfUp ((M : ℚ) * (10 : ℚ) ^ c) : ℤ) : ℚ) * (10 : ℚ) ^ (-(dA : ℤ)) =
        (j : ℚ) * (10 : ℚ) ^ t := by
  have h10 : (10 : ℚ) ≠ 0 := by norm_num
  have h5z : (10 : ℤ) ^ 5 = 100000 := by norm_num
  by_cases hc : 0 ≤ c
  · have hint : (M : ℚ) * (10 : ℚ) ^ c = ((M * 10 ^ c.toNat : ℤ) : ℚ) := by
      push_cast
      rw [← zpow_natCast (10 : ℚ) c.toNat, Int.toNat_of_nonneg hc]
    rw [hint, roundHalfUp_intCast, ← hint]
    by_cases hM5 : M.natAbs < 10 ^ 5
    · refine ⟨M, c - (dA : ℤ), hM5, ?_⟩
      rw [mul_assoc, ← zpow_add₀ h10,
        show c + -(dA : ℤ) = c - (dA : ℤ) from by ring]
    · have hMeq : M = 100000 ∨ M = -100000 := by omega
      rcases hMeq with hMeq | hMeq <;> subst hMeq
      · refine ⟨1, c - (dA : ℤ) + 5, by norm_num, ?_⟩
        have h5q : ((100000 : ℤ) : ℚ) = (10 : ℚ) ^ (5 : ℤ) := by norm_num
        rw [h5q, mul_assoc, ← zpow_add₀ h10, ← zpow_add₀ h10]
        push_cast
        rw [one_mul, show (5 : ℤ) + (c + -(dA : ℤ)) = c - (dA : ℤ) + 5 from by ring]
      · refine ⟨-1, c - (dA : ℤ) + 5, by norm_num, ?_⟩
        have h5q : ((-100000 : ℤ) : ℚ) = -((10 : ℚ) ^ (5 : ℤ)) := by norm_num
        rw [h5q]
        rw [show -((10 : ℚ) ^ (5 : ℤ)) * (10 : ℚ) ^ c * (10 : ℚ) ^ (-(dA : ℤ)) =
          -((10 : ℚ) ^ (5 : ℤ) * ((10 : ℚ) ^ c * (10 : ℚ) ^ (-(dA : ℤ)))) from by ring]
        rw [← zpow_add₀ h10, ← zpow_add₀ h10]
        push_cast
        rw [show (5 : ℤ) + (c + -(dA : ℤ)) = c - (dA : ℤ) + 5 from by ring]
        ring
  · -- negative scale: the rounded value itself is below 10 ^ 4 in magnitude
    push_neg at hc
    have h5n : (10 : ℕ) ^ 5 = 100000 := by norm_num
    have hMabs : |(M : ℚ)| ≤ 100000 := by
      rw [← Int.cast_abs]
      have hn : |M| ≤ 100000 := by
        rw [Int.abs_eq_natAbs]
        omega
      exact_mod_cast hn
    have hzc : (10 : ℚ) ^ c ≤ (10 : ℚ) ^ (-1 : ℤ) :=
      zpow_le_zpow_right₀ (by norm_num) (by omega)
    have h101 : (10 : ℚ) ^ (-1 : ℤ) = 1 / 10 := by norm_num
    have habs : |(M : ℚ) * (10 : ℚ) ^ c| ≤ 10000 := by
      rw [abs_mul, abs_of_pos (zpow_pos (show (0 : ℚ) < 10 from by norm_num) c)]
      calc |(M : ℚ)| * (10 : ℚ) ^ c ≤ 100000 * (10 : ℚ) ^ c :=
            mul_le_mul_of_nonneg_right hMabs (le_of_lt (zpow_pos (by norm_num) c))
        _ ≤ 100000 * (1 / 10) := by
            apply mul_le_mul_of_nonneg_left _ (by norm_num)
            rw [← h101]
            exact hzc
        _ = 10000 := by norm_num
    obtain ⟨habs1, habs2⟩ := abs_le.mp habs
    have hup := roundHalfUp_le ((M : ℚ) * (10 : ℚ) ^ c)
    have hlow := lt_roundHalfUp ((M : ℚ) * (10 : ℚ) ^ c)
    have hK1 : roundHalfUp ((M : ℚ) * (10 : ℚ) ^ c) < 10001 := by
      have : ((roundHalfUp ((M : ℚ) * (10 : ℚ) ^ c) : ℤ) : ℚ) < ((10001 : ℤ) : ℚ) := by
        push_cast
        linarith
      exact_mod_cast this
    have hK2 : (-10001 : ℤ) < roundHalfUp ((M : ℚ) * (10 : ℚ) ^ c) := by
      have : (((-10001 : ℤ)) : ℚ) < ((roundHalfUp ((M : ℚ) * (10 : ℚ) ^ c) : ℤ) : ℚ) := by
        push_cast
        linarith
      exact_mod_cast this
    exact ⟨roundHalfUp ((M : ℚ) * (10 : ℚ) ^ c), -(dA : ℤ), by omega, rfl⟩

/-- Helper: the unstripped rendering of `k / 10 ^ d` prints at most `d`
fractional digits. -/
theorem fracCount_renderParts_le (k : ℤ) (d : ℕ) : fracCount (renderParts k d) ≤ d := by
  by_cases hd : d = 0
  · subst hd
    have hchars : (renderParts k 0).toList =
        (if k < 0 then ['-'] else []) ++ natChars k.natAbs := by
      simp only [renderParts]
      rw [if_pos trivial]
      rfl
    have hnotin : '.' ∉ (renderParts k 0).toList := by
      rw [hchars]
      intro hmem
      rcases List.mem_append.mp hmem with hmem | hmem
      · split at hmem <;> simp_all
      · exact (natChars_props _ '.' hmem).1 rfl
    simp only [fracCount]
    rw [if_neg hnotin]
  · have hfpraw : (natChars (k.natAbs % 10 ^ d)).length ≤ d :=
      natChars_length_le _ d (by omega) (Nat.mod_lt _ (by positivity))
    have hchars : (renderParts k d).toList =
        (if k < 0 then ['-'] else []) ++ natChars (k.natAbs / 10 ^ d) ++ '.' ::
          (List.replicate (d - (natChars (k.natAbs % 10 ^ d)).length) '0' ++
            natChars (k.natAbs % 10 ^ d)) := by
      simp only [renderParts]
      rw [if_neg hd]
      rfl
    have hfp : ∀ c ∈ List.replicate (d - (natChars (k.natAbs % 10 ^ d)).length) '0' ++
        natChars (k.natAbs % 10 ^ d), (fun c => decide (c ≠ '.')) c = true := by
      intro c hc
      rcases List.mem_append.mp hc with hc | hc
      · have := List.eq_of_mem_replicate hc
        subst this
        decide
      · simpa using (natChars_props _ c hc).1
    have hrev : ((if k < 0 then ['-'] else []) ++ natChars (k.natAbs / 10 ^ d) ++ '.' ::
          (List.replicate (d - (natChars (k.natAbs % 10 ^ d)).length) '0' ++
            natChars (k.natAbs % 10 ^ d))).reverse =
        (List.replicate (d - (natChars (k.natAbs % 10 ^ d)).length) '0' ++
            natChars (k.natAbs % 10 ^ d)).reverse ++ '.' ::
          ((natChars (k.natAbs / 10 ^ d)).reverse ++
            (if k < 0 then ['-'] else []).reverse) := by
      simp [List.reverse_append, List.reverse_cons, List.append_assoc]
    have hdotmem : '.' ∈ (renderParts k d).toList := by
      rw [hchars]
      rw [List.mem_append]
      right
      exact List.mem_cons_self _ _
    simp only [fracCount]
    rw [if_pos hdotmem, hchars, hrev]
    have hallrev : ∀ c ∈ (List.replicate (d - (natChars (k.natAbs % 10 ^ d)).length) '0' ++
        natChars (k.natAbs % 10 ^ d)).reverse, (fun c => decide (c ≠ '.')) c = true := by
      intro c hc
      exact hfp c (List.mem_reverse.mp hc)
    rw [(takeWhile_append_stop _ _ '.' _ hallrev (by decide)).1]
    rw [List.length_reverse, List.length_append, List.length_replicate]
    omega

/-- Helper: the decimal string printed for `k / 10 ^ d` has at most `d`
digits after the point. -/
theorem fracCount_renderDec_le (k : ℤ) (d : ℕ) : fracCount (renderDec k d) ≤ d := by
  rw [renderDec]
  exact le_trans (fracCount_renderParts_le _ _) (stripZeros_snd_le k d)

/-- Helper (idempotence core): re-rounding the parsed value of a rounded
price reproduces the same string, for any decimal budget `dA`. -/
theorem roundPrice_idem_core (x : ℚ) (dA : ℕ) :
    renderDec (fixedMantissa dA
      (sig5 (parseDec (renderDec (fixedMantissa dA (sig5 x)) dA)))) dA =
      renderDec (fixedMantissa dA (sig5 x)) dA := by
  obtain ⟨M, e4, hM, hform⟩ := sig5_form x
  have h10 : (10 : ℚ) ≠ 0 := by norm_num
  have hmul : mulPow10 (sig5 x) (dA : ℤ) = (M : ℚ) * (10 : ℚ) ^ (e4 + (dA : ℤ)) := by
    rw [mulPow10_eq, hform, mul_assoc, ← zpow_add₀ h10]
  have hK : fixedMantissa dA (sig5 x) = roundHalfUp ((M : ℚ) * (10 : ℚ) ^ (e4 + (dA : ℤ))) := by
    rw [fixedMantissa, hmul]
  obtain ⟨j, t, hj, hjt⟩ := roundHalfUp_scaled_form M hM (e4 + (dA : ℤ)) dA
  have hparse : parseDec (renderDec (fixedMantissa dA (sig5 x)) dA) =
      (j : ℚ) * (10 : ℚ) ^ t := by
    rw [parseDec_renderDec, hK]
    exact hjt
  have hcancel : ∀ kk : ℤ, fixedMantissa dA ((kk : ℚ) * (10 : ℚ) ^ (-(dA : ℤ))) = kk := by
    intro kk
    rw [fixedMantissa, mulPow10_cancel, roundHalfUp_intCast]
  calc renderDec (fixedMantissa dA
        (sig5 (parseDec (renderDec (fixedMantissa dA (sig5 x)) dA)))) dA
      = renderDec (fixedMantissa dA ((j : ℚ) * (10 : ℚ) ^ t)) dA := by
        rw [hparse, sig5_fixed_small j t hj]
    _ = renderDec (fixedMantissa dA
        (((roundHalfUp ((M : ℚ) * (10 : ℚ) ^ (e4 + (dA : ℤ))) : ℤ) : ℚ) *
          (10 : ℚ) ^ (-(dA : ℤ)))) dA := by rw [hjt]
    _ = renderDec (roundHalfUp ((M : ℚ) * (10 : ℚ) ^ (e4 + (dA : ℤ)))) dA := by rw [hcancel]
    _ = renderDec (fixedMantissa dA (sig5 x)) dA := by rw [← hK]

/-- C6: for all `(price, szDecimals, isSpot)` with
`szDecimals ≤ (isSpot ? 8 : 6)`, the string `roundPrice` returns has at most
`(isSpot ? 8 : 6) - szDecimals` digits after the decimal point, and
`roundPrice` is idempotent: applied to the numeric value of its own output
with the same `szDecimals` and `isSpot` it returns the same string. -/
theorem roundPrice_digits_and_idempotent (price : ℚ) (szDecimals : ℕ) (isSpot : Bool)
    (h : szDecimals ≤ (if isSpot then 8 else 6)) :
    fracCount (roundPrice price szDecimals isSpot) ≤ (if isSpot then 8 else 6) - szDecimals ∧
    roundPrice (parseDec (roundPrice price szDecimals isSpot)) szDecimals isSpot =
      roundPrice price szDecimals isSpot := by
  constructor
  · simp only [roundPrice]
    exact fracCount_renderDec_le _ _
  · simp only [roundPrice]
    exact roundPrice_idem_core price ((if isSpot then 8 else 6) - szDecimals)

/-- C6 (witness): the price 12345.67 with `szDecimals = 2` on a derivative
instrument satisfies both conjuncts. -/
theorem roundPrice_digits_and_idempotent_witness :
    fracCount (roundPrice (Rat.divInt 1234567 100) 2 false) ≤ (if false then 8 else 6) - 2 ∧
    roundPrice (parseDec (roundPrice (Rat.divInt 1234567 100) 2 false)) 2 false =
      roundPrice (Rat.divInt 1234567 100) 2 false :=
  roundPrice_digits_and_idempotent (Rat.divInt 1234567 100) 2 false (by decide)
